import Mathlib

/-!
Verification of the timetable scheduler in `timetable.py` of the
InsightED-AI repository.  The Python module is shallowly embedded below:
times are "HH:MM" strings compared lexicographically (as Python does),
the SQLite `timetable` table is a `List Session`, the in-memory
`defaultdict` occupancy indexes are functions to lists of intervals, and
every call to the `random` module consumes one draw from an explicit
stream of natural numbers, so that all theorems quantify over every
possible randomisation.  Batch-insert failures (SQLite exceptions) are
modelled by an explicit oracle of booleans, one per section key.
-/

namespace InsightED

/-- Lexicographic strict comparison of char lists by code point, the
order Python uses when comparing `"HH:MM"` strings with `<`/`<=`. -/
def charListLt : List Char → List Char → Bool
  | [], [] => false
  | [], _ :: _ => true
  | _ :: _, [] => false
  | a :: as, b :: bs =>
    if a.toNat < b.toNat then true
    else if b.toNat < a.toNat then false
    else charListLt as bs

/-- Python `a <= b` on strings: lexicographic by code point. -/
def strLe (a b : String) : Bool := !(charListLt b.data a.data)

/-- Embeds `_time_overlap` (timetable.py line 96): the half-open ranges
`[a_start, a_end)` and `[b_start, b_end)` overlap, i.e.
`not (a_end <= b_start or a_start >= b_end)`. -/
def time_overlap (a_start a_end b_start b_end : String) : Bool :=
  !(strLe a_end b_start || strLe b_end a_start)

theorem time_overlap_symm (a b c d : String) :
    time_overlap a b c d = time_overlap c d a b := by
  simp [time_overlap, Bool.or_comm]

/-- A `(start_time, end_time)` pair of "HH:MM" strings. -/
abbrev Interval := String × String

/-- One row of the `timetable` table (the `id` autoincrement column is
irrelevant to every claim and omitted).  `faculty` and `room_no` are the
two nullable columns of the schema. -/
structure Session where
  course : String
  semester : Nat
  sec : String
  day : String
  start_time : String
  end_time : String
  subject : String
  faculty : Option String
  room_no : Option String
deriving DecidableEq, Repr

/-- The row matches a (course, semester, section) key, as in the
`DELETE FROM timetable WHERE course=? AND semester=? AND section=?`
statement of line 278. -/
def keyMatches (course : String) (semester : Nat) (sec : String) (s : Session) : Bool :=
  decide (s.course = course) && decide (s.semester = semester) && decide (s.sec = sec)

/-- The module constants of timetable.py (lines 20-44).  They are
collected in a structure because claim C3 quantifies over all values of
the day and time-slot lists; `sample_subjects` plays the role of
`SAMPLE_SUBJECTS.get`. -/
structure Config where
  days : List String
  time_slots : List Interval
  sample_subjects : String → Option (List String)
  sample_faculty : List String
  rooms : List String

/-- The concrete `DAYS` constant. -/
def DAYS : List String :=
  ["Monday", "Tuesday", "Wednesday", "Thursday", "Friday", "Saturday"]

/-- The concrete `TIME_SLOTS` constant. -/
def TIME_SLOTS : List Interval :=
  [("09:00", "10:00"), ("10:00", "11:00"), ("11:15", "12:15"),
   ("12:15", "13:15"), ("14:00", "15:00"), ("15:00", "16:00")]

/-- The concrete `SAMPLE_SUBJECTS` dictionary. -/
def SAMPLE_SUBJECTS : String → Option (List String) := fun c =>
  if c = "BCA" then
    some ["Python Programming", "Database Systems", "Networking",
          "Data Structures", "AI Fundamentals"]
  else if c = "B.Tech" then
    some ["DSA", "Operating Systems", "DBMS", "Computer Networks", "Machine Learning"]
  else if c = "BBA" then
    some ["Marketing Management", "Financial Accounting", "Business Law",
          "HR Management", "Economics"]
  else if c = "MBA" then
    some ["Corporate Finance", "Strategic Management", "Leadership Skills",
          "Business Analytics", "Organizational Behaviour"]
  else none

/-- The concrete `SAMPLE_FACULTY` pool. -/
def SAMPLE_FACULTY : List String :=
  ["Dr. Sharma", "Prof. Singh", "Dr. Mehta", "Ms. Verma", "Mr. Gupta",
   "Dr. Kapoor", "Dr. Rao", "Dr. Iyer"]

/-- The concrete `ROOMS` pool, `A-101..A-105` and `B-201..B-205`. -/
def ROOMS : List String :=
  ["A-101", "A-102", "A-103", "A-104", "A-105",
   "B-201", "B-202", "B-203", "B-204", "B-205"]

/-- The constants of the source module assembled as a configuration. -/
def defaultConfig : Config :=
  { days := DAYS, time_slots := TIME_SLOTS, sample_subjects := SAMPLE_SUBJECTS,
    sample_faculty := SAMPLE_FACULTY, rooms := ROOMS }

/-- Pop one draw from the stream of random numbers (`0` once exhausted). -/
def take1 : List Nat → Nat × List Nat
  | [] => (0, [])
  | n :: r => (n, r)

/-- Pop one answer from the insert-failure oracle; by default an insert
succeeds. -/
def takeB : List Bool → Bool × List Bool
  | [] => (true, [])
  | b :: r => (b, r)

/-- `random.choice`: select the element at position `n % length`; its
callers in the source only apply it to non-empty lists, and `dflt` is
returned on an empty list. -/
def choice {α : Type} (l : List α) (dflt : α) (n : Nat) : α :=
  l.getD (n % l.length) dflt

theorem choice_mem {α : Type} (l : List α) (dflt : α) (n : Nat) (h : l ≠ []) :
    choice l dflt n ∈ l := by
  have hlen : 0 < l.length := List.length_pos.mpr h
  have hlt : n % l.length < l.length := Nat.mod_lt _ hlen
  rw [choice, List.getD_eq_getElem l dflt hlt]
  exact List.getElem_mem hlt

/-- One step of `random.shuffle`: remove the element at the drawn index.
Any draw stream yields a permutation, and every permutation of the input
is realised by some draw stream. -/
def shuffle_go {α : Type} : Nat → List Nat → List α → List α × List Nat
  | 0, rnd, l => (l, rnd)
  | _ + 1, rnd, [] => ([], rnd)
  | fuel + 1, rnd, a :: r =>
    let n := (take1 rnd).1
    let rnd1 := (take1 rnd).2
    let i := n % (a :: r).length
    let x := (a :: r).getD i a
    let rest := (a :: r).eraseIdx i
    let out := shuffle_go fuel rnd1 rest
    (x :: out.1, out.2)

/-- `random.shuffle`, consuming one draw per element. -/
def shuffle {α : Type} (rnd : List Nat) (l : List α) : List α × List Nat :=
  shuffle_go l.length rnd l

theorem getD_cons_eraseIdx_perm {α : Type} (l : List α) (dflt : α) (i : Nat)
    (h : i < l.length) : (l.getD i dflt :: l.eraseIdx i).Perm l := by
  induction l generalizing i with
  | nil => simp at h
  | cons a r ih =>
    cases i with
    | zero => simp [List.eraseIdx]
    | succ j =>
      have hj : j < r.length := by simpa using h
      rw [List.getD_cons_succ, List.eraseIdx_cons_succ]
      exact List.Perm.trans (List.Perm.swap a (r.getD j dflt) (r.eraseIdx j))
        ((ih j hj).cons a)

theorem shuffle_go_perm {α : Type} (fuel : Nat) (rnd : List Nat) (l : List α)
    (h : l.length ≤ fuel) : (shuffle_go fuel rnd l).1.Perm l := by
  induction fuel generalizing rnd l with
  | zero => simp [shuffle_go]
  | succ k ih =>
    cases l with
    | nil => simp [shuffle_go]
    | cons a r =>
      have hpos : 0 < (a :: r).length := by simp
      have hi : ((take1 rnd).1 % (a :: r).length) < (a :: r).length :=
        Nat.mod_lt _ hpos
      have hrest : ((a :: r).eraseIdx ((take1 rnd).1 % (a :: r).length)).length ≤ k := by
        rw [List.length_eraseIdx]
        simp only [hi, if_true]
        have : (a :: r).length ≤ k + 1 := h
        omega
      have hperm := ih (take1 rnd).2 ((a :: r).eraseIdx ((take1 rnd).1 % (a :: r).length)) hrest
      show ((a :: r).getD _ a :: (shuffle_go k _ _).1).Perm (a :: r)
      exact List.Perm.trans (hperm.cons _) (getD_cons_eraseIdx_perm _ a _ hi)

theorem shuffle_perm {α : Type} (rnd : List Nat) (l : List α) :
    (shuffle rnd l).1.Perm l :=
  shuffle_go_perm l.length rnd l (Nat.le_refl _)

theorem shuffle_length {α : Type} (rnd : List Nat) (l : List α) :
    (shuffle rnd l).1.length = l.length :=
  (shuffle_perm rnd l).length_eq

/-- The check `any(_time_overlap(st, et, a, b) for a, b in lst)` used
throughout the generator. -/
def overlapsAny (st_ et_ : String) (l : List Interval) : Bool :=
  l.any (fun iv => time_overlap st_ et_ iv.1 iv.2)

theorem overlapsAny_eq_false {st_ et_ : String} {l : List Interval}
    (h : overlapsAny st_ et_ l = false) :
    ∀ iv ∈ l, time_overlap st_ et_ iv.1 iv.2 = false := by
  intro iv hiv
  have := List.any_eq_false.mp h iv hiv
  simpa using this

/-- Minimum of `load` over a faculty pool, the value
`min(faculty_load.get(f, 0) for f in faculty_pool)` of line 102. -/
def min_load : List String → (String → Nat) → Nat
  | [], _ => 0
  | [f], load => load f
  | f :: g :: r, load => min (load f) (min_load (g :: r) load)

theorem min_load_le (pool : List String) (load : String → Nat) :
    ∀ f ∈ pool, min_load pool load ≤ load f := by
  induction pool with
  | nil => intro f hf; simp at hf
  | cons a r ih =>
    intro f hf
    cases r with
    | nil =>
      rw [List.mem_singleton] at hf
      subst hf
      simp [min_load]
    | cons b t =>
      rcases List.mem_cons.mp hf with h | h
      · subst h; exact min_le_left _ _
      · exact le_trans (min_le_right _ _) (ih f h)

theorem min_load_attained (load : String → Nat) :
    ∀ pool : List String, pool ≠ [] → ∃ f ∈ pool, load f = min_load pool load
  | [], h => absurd rfl h
  | [a], _ => ⟨a, by simp, by simp [min_load]⟩
  | a :: b :: t, _ => by
    rcases min_load_attained load (b :: t) (by simp) with ⟨g, hg, hload⟩
    rcases le_total (load a) (min_load (b :: t) load) with hle | hle
    · refine ⟨a, by simp, ?_⟩
      simp only [min_load]
      rw [min_def]
      split <;> omega
    · refine ⟨g, List.mem_cons_of_mem a hg, ?_⟩
      simp only [min_load]
      rw [min_def]
      split <;> omega

/-- Embeds `_pick_faculty_balanced` (line 100): among the pool members of
least load, choose one at random. -/
def pick_faculty_balanced (pool : List String) (load : String → Nat) (n : Nat) : String :=
  let m := min_load pool load
  let candidates := pool.filter (fun f => decide (load f = m))
  choice candidates "" n

theorem pick_faculty_balanced_spec (pool : List String) (load : String → Nat)
    (n : Nat) (h : pool ≠ []) :
    pick_faculty_balanced pool load n ∈ pool ∧
      load (pick_faculty_balanced pool load n) = min_load pool load := by
  rcases min_load_attained load pool h with ⟨g, hg, hload⟩
  have hcand : g ∈ pool.filter (fun f => decide (load f = min_load pool load)) := by
    simp [List.mem_filter, hg, hload]
  have hne : pool.filter (fun f => decide (load f = min_load pool load)) ≠ [] :=
    List.ne_nil_of_mem hcand
  have hmem := choice_mem _ "" n hne
  have := List.mem_filter.mp hmem
  exact ⟨this.1, by simpa using this.2⟩

/-- The shared in-memory state of `auto_generate_timetable`: the three
`defaultdict(list)` occupancy indexes (lines 247-249), the
`faculty_load` counter (line 261), the stream of pending random draws,
and a ghost flag recording whether any committed placement had to fall
back on `random.choice(ROOMS)` because no room was free (line 331). -/
structure GenState where
  occupied_room : String × String → List Interval
  occupied_faculty : String × String → List Interval
  occupied_section : String × Nat × String × String → List Interval
  faculty_load : String → Nat
  rnd : List Nat
  room_fallback : Bool

/-- Append an interval to one entry of an occupancy index, the effect of
`occupied_x[key].append((st, et))`. -/
def pushIv {α : Type} [DecidableEq α] (m : α → List Interval) (k : α) (iv : Interval) :
    α → List Interval :=
  fun x => if x = k then m x ++ [iv] else m x

theorem pushIv_mem {α : Type} [DecidableEq α] {m : α → List Interval} {k k' : α}
    {iv iv' : Interval} (h : iv ∈ m k') : iv ∈ pushIv m k iv' k' := by
  by_cases hk : k' = k
  · subst hk
    simp only [pushIv, if_true, eq_self_iff_true, List.mem_append]
    exact Or.inl h
  · simpa [pushIv, hk] using h

theorem pushIv_mem_self {α : Type} [DecidableEq α] (m : α → List Interval) (k : α)
    (iv : Interval) : iv ∈ pushIv m k iv k := by
  simp [pushIv]

/-- Seeding one already-persisted row into the occupancy indexes
(lines 252-258).  Python's `if room:` and `if faculty:` are truthiness
tests, so `NULL` and the empty string are both skipped; the section
index is fed unconditionally. -/
def seed_row (st : GenState) (s : Session) : GenState :=
  let st1 :=
    match s.room_no with
    | some r =>
      if r = "" then st
      else { st with occupied_room := pushIv st.occupied_room (r, s.day) (s.start_time, s.end_time) }
    | none => st
  let st2 :=
    match s.faculty with
    | some f =>
      if f = "" then st1
      else { st1 with occupied_faculty := pushIv st1.occupied_faculty (f, s.day) (s.start_time, s.end_time) }
    | none => st1
  { st2 with
    occupied_section :=
      pushIv st2.occupied_section (s.course, s.semester, s.sec, s.day) (s.start_time, s.end_time) }

/-- The occupancy and load state at the start of a generation run
(lines 246-265): indexes seeded from every row of the table, and
`faculty_load` from `SELECT faculty, COUNT(*) .. WHERE faculty IS NOT
NULL GROUP BY faculty`. -/
def seed_state (table : List Session) (rnd : List Nat) : GenState :=
  table.foldl seed_row
    { occupied_room := fun _ => [], occupied_faculty := fun _ => [],
      occupied_section := fun _ => [],
      faculty_load := fun f => (table.filter (fun s => decide (s.faculty = some f))).length,
      rnd := rnd, room_fallback := false }

/-- The per-section-key loop state: the shuffled `day_slot_pairs` work
queue (line 297), `section_occupied_local` (line 294), the shared
`GenState`, and the accumulating `inserts` batch (line 301). -/
structure SubjState where
  queue : List (String × Interval)
  local_occ : String → List Interval
  st : GenState
  inserts : List Session

/-- The tail of one placement attempt (lines 329-345): choose a room
(free if possible, otherwise any room at random), run the final global
section check, and on success record the session in every index.
Returns the new loop state, the session placed (if any), and whether
the `break` on an empty queue fired (never, from here). -/
def attemptFinish (cfg : Config) (course : String) (semester : Nat) (sec : String)
    (subj : String) (d : String) (slot : Interval) (rest : List (String × Interval))
    (faculty : String) (rnd : List Nat) (ss : SubjState) :
    SubjState × Option Session × Bool :=
  let st_ := slot.1
  let et_ := slot.2
  let free_rooms := cfg.rooms.filter (fun r => !overlapsAny st_ et_ (ss.st.occupied_room (r, d)))
  let n3 := (take1 rnd).1
  let r3 := (take1 rnd).2
  let room_choice := if free_rooms.isEmpty then choice cfg.rooms "" n3 else choice free_rooms "" n3
  if overlapsAny st_ et_ (ss.st.occupied_section (course, semester, sec, d)) then
    ({ ss with queue := rest ++ [(d, slot)], st := { ss.st with rnd := r3 } }, none, false)
  else
    let p : Session :=
      ⟨course, semester, sec, d, st_, et_, subj, some faculty, some room_choice⟩
    ({ queue := rest,
       local_occ := fun x => if x = d then ss.local_occ x ++ [(st_, et_)] else ss.local_occ x,
       st := { occupied_room := pushIv ss.st.occupied_room (room_choice, d) (st_, et_),
               occupied_faculty := pushIv ss.st.occupied_faculty (faculty, d) (st_, et_),
               occupied_section :=
                 pushIv ss.st.occupied_section (course, semester, sec, d) (st_, et_),
               faculty_load :=
                 fun f => if f = faculty then ss.st.faculty_load f + 1 else ss.st.faculty_load f,
               rnd := r3,
               room_fallback := ss.st.room_fallback || free_rooms.isEmpty },
       inserts := ss.inserts ++ [p] }, some p, false)

/-- One iteration of the `while sessions_needed > 0 and attempts < 500`
body (lines 308-345): break if the queue is empty, pop the head
candidate, and either requeue it (local section clash, no free faculty,
or global section clash) or place a session. -/
def attemptStep (cfg : Config) (course : String) (semester : Nat) (sec : String)
    (subj : String) (ss : SubjState) : SubjState × Option Session × Bool :=
  match ss.queue with
  | [] => (ss, none, true)
  | (d, slot) :: rest =>
    let st_ := slot.1
    let et_ := slot.2
    if overlapsAny st_ et_ (ss.local_occ d) then
      ({ ss with queue := rest ++ [(d, slot)] }, none, false)
    else
      let n1 := (take1 ss.st.rnd).1
      let r1 := (take1 ss.st.rnd).2
      let fac0 := pick_faculty_balanced cfg.sample_faculty ss.st.faculty_load n1
      if overlapsAny st_ et_ (ss.st.occupied_faculty (fac0, d)) then
        let available_fac := cfg.sample_faculty.filter
          (fun f => !overlapsAny st_ et_ (ss.st.occupied_faculty (f, d)))
        if available_fac.isEmpty then
          ({ ss with queue := rest ++ [(d, slot)], st := { ss.st with rnd := r1 } }, none, false)
        else
          let n2 := (take1 r1).1
          let r2 := (take1 r1).2
          attemptFinish cfg course semester sec subj d slot rest
            (choice available_fac "" n2) r2 ss
      else
        attemptFinish cfg course semester sec subj d slot rest fac0 r1 ss

/-- The bounded placement loop for one subject (lines 304-345), with the
remaining attempt budget as fuel.  Returns the final loop state, the
number of sessions still needed, and the number of attempts consumed. -/
def place_loop (cfg : Config) (course : String) (semester : Nat) (sec : String)
    (subj : String) : Nat → Nat → SubjState → SubjState × Nat × Nat
  | 0, needed, ss => (ss, needed, 0)
  | fuel + 1, needed, ss =>
    if needed = 0 then (ss, 0, 0)
    else
      let t := attemptStep cfg course semester sec subj ss
      if t.2.2 then (t.1, needed, 1)
      else
        let r := place_loop cfg course semester sec subj fuel
          (if t.2.1.isSome then needed - 1 else needed) t.1
        (r.1, r.2.1, r.2.2 + 1)

/-- All (day, slot) pairs, line 297 / line 350. -/
def day_slot_pairs_all (cfg : Config) : List (String × Interval) :=
  cfg.days.flatMap (fun d => cfg.time_slots.map (fun slot => (d, slot)))

/-- Processing one subject (lines 303-351): run the 500-attempt
placement loop for 3 sessions, log a shortfall if sessions remain, and
rebuild + reshuffle the work queue when fewer than 5 pairs are left. -/
def schedule_subject (cfg : Config) (course : String) (semester : Nat) (sec : String)
    (acc : SubjState × List (String × Nat)) (subj : String) :
    SubjState × List (String × Nat) :=
  let r := place_loop cfg course semester sec subj 500 3 acc.1
  let ss1 := r.1
  let needed := r.2.1
  let log1 := if 0 < needed then acc.2 ++ [(subj, needed)] else acc.2
  if ss1.queue.length < 5 then
    let sh := shuffle ss1.st.rnd (day_slot_pairs_all cfg)
    ({ ss1 with queue := sh.1, st := { ss1.st with rnd := sh.2 } }, log1)
  else (ss1, log1)

/-- The capacity check of lines 285-291: if `subjects × 3` exceeds
`len(DAYS) * len(TIME_SLOTS)`, keep only the first
`max(1, max_weekly_slots // 3)` subjects. -/
def trim_subjects (days_len slots_len : Nat) (subjects : List String) :
    List String × Bool :=
  let max_weekly_slots := days_len * slots_len
  let desired_slots := subjects.length * 3
  if max_weekly_slots < desired_slots then
    (subjects.take (max 1 (max_weekly_slots / 3)), true)
  else (subjects, false)

/-- The result of regenerating one (course, semester, section) key. -/
structure KeyResult where
  table : List Session
  st : GenState
  inserts : List Session
  scheduled : List String
  shortfalls : List (String × Nat)
  trimmed : Bool

/-- Regeneration of one section key (lines 276-363): delete this key's
rows, shuffle and possibly trim the subject list, build a shuffled work
queue, schedule each subject, then commit the batch.  `insert_ok` is
the oracle for the `executemany` of line 355: on failure the
transaction rolls back to the last commit, which also undoes the
`DELETE` of line 278, while the in-memory indexes keep their updates. -/
def process_key (cfg : Config) (course : String) (semester : Nat) (sec : String)
    (subj_pool : List String) (insert_ok : Bool) (table : List Session)
    (st : GenState) : KeyResult :=
  let table1 := table.filter (fun s => !keyMatches course semester sec s)
  let sh1 := shuffle st.rnd subj_pool
  let tr := trim_subjects cfg.days.length cfg.time_slots.length sh1.1
  let subjects := tr.1
  let sh2 := shuffle sh1.2 (day_slot_pairs_all cfg)
  let ss0 : SubjState :=
    { queue := sh2.1, local_occ := fun _ => [], st := { st with rnd := sh2.2 }, inserts := [] }
  let out := subjects.foldl (schedule_subject cfg course semester sec) (ss0, [])
  let ssF := out.1
  { table := if insert_ok then table1 ++ ssF.inserts else table,
    st := ssF.st, inserts := ssF.inserts, scheduled := subjects,
    shortfalls := out.2, trimmed := tr.2 }

/-- The subject pool for a course (lines 270-273): the course's catalog
entry, or the generic fallback list when the course is unknown or its
entry is empty (Python truthiness again). -/
def subj_pool_for (cfg : Config) (course : String) : List String :=
  match cfg.sample_subjects course with
  | some (x :: xs) => x :: xs
  | _ => ["Core Subject", "Elective", "Project Work"]

/-- The iteration order of section keys (lines 269-275): every course,
then semesters `1..semesters`, then every section label. -/
def key_list (course_list : List String) (semesters : Nat) (sections : List String) :
    List (String × Nat × String) :=
  course_list.flatMap (fun c =>
    (List.range semesters).flatMap (fun i => sections.map (fun s => (c, i + 1, s))))

/-- The observable outcome of a whole generation run. -/
structure RunResult where
  table : List Session
  st : GenState
  processed : List (String × Nat × String)
  placed : List Session
  shortfalls : List (String × Nat)
  total_inserts : Nat

/-- The outer loop of `auto_generate_timetable`: process each section
key in order, threading the table, the shared state, and the oracles.
`placed` collects every generated session (whether or not its batch
commit succeeded) and `total_inserts` mirrors the counter of line 344. -/
def run_keys (cfg : Config) : List (String × Nat × String) → List Bool → RunResult → RunResult
  | [], _, acc => acc
  | (c, sem, s) :: ks, oks, acc =>
    let ok := (takeB oks).1
    let oks' := (takeB oks).2
    let R := process_key cfg c sem s (subj_pool_for cfg c) ok acc.table acc.st
    run_keys cfg ks oks'
      { table := R.table, st := R.st,
        processed := acc.processed ++ [(c, sem, s)],
        placed := acc.placed ++ R.inserts,
        shortfalls := acc.shortfalls ++ R.shortfalls,
        total_inserts := acc.total_inserts + R.inserts.length }

/-- Embeds `auto_generate_timetable` (line 233): seed the occupancy
indexes and load counters from the whole table, then regenerate every
(course, semester, section) key. -/
def auto_generate_timetable (cfg : Config) (course_list : List String) (semesters : Nat)
    (sections : List String) (table : List Session) (rnd : List Nat)
    (insert_oks : List Bool) : RunResult :=
  run_keys cfg (key_list course_list semesters sections) insert_oks
    { table := table, st := seed_state table rnd, processed := [], placed := [],
      shortfalls := [], total_inserts := 0 }

/-- Embeds `generate_single_timetable` (line 367): delegate with
`semesters := semester` and `sections := [section]`. -/
def generate_single_timetable (cfg : Config) (course : String) (semester : Nat)
    (sec : String) (table : List Session) (rnd : List Nat)
    (insert_oks : List Bool) : RunResult :=
  auto_generate_timetable cfg [course] semester [sec] table rnd insert_oks

/-- The room-overlap check of lines 128-136: the Python guard
`if room_no:` is a truthiness test, so both `NULL` and the empty string
skip the check. -/
def room_conflict_check (table : List Session) (day start_time end_time : String) :
    Option String → Bool
  | some r =>
    if r = "" then false
    else table.any (fun s =>
      decide (s.room_no = some r) && decide (s.day = day) &&
      time_overlap s.start_time s.end_time start_time end_time)
  | none => false

/-- The UNIQUE(course, semester, section, day, start_time, end_time,
room_no) constraint of the schema (line 66): in SQLite two rows with a
NULL room never conflict. -/
def unique_conflict_check (table : List Session) (course : String) (semester : Nat)
    (sec day start_time end_time : String) : Option String → Bool
  | some r => table.any (fun s =>
      decide (s.course = course) && decide (s.semester = semester) &&
      decide (s.sec = sec) && decide (s.day = day) &&
      decide (s.start_time = start_time) && decide (s.end_time = end_time) &&
      decide (s.room_no = some r))
  | none => false

/-- Embeds `add_timetable_entry` (lines 107-146): reject on a section
overlap, then (when `room_no` is truthy) on a room overlap, then insert
unless the UNIQUE(course, semester, section, day, start_time, end_time,
room_no) constraint fires (NULL room rows never conflict in SQLite).
Returns whether the row was inserted together with the new table. -/
def add_timetable_entry (table : List Session) (course : String) (semester : Nat)
    (sec day start_time end_time subject : String)
    (faculty room_no : Option String) : Bool × List Session :=
  let section_conflict := table.any (fun s =>
    decide (s.course = course) && decide (s.semester = semester) && decide (s.sec = sec) &&
    decide (s.day = day) && time_overlap s.start_time s.end_time start_time end_time)
  if section_conflict then (false, table)
  else if room_conflict_check table day start_time end_time room_no then (false, table)
  else if unique_conflict_check table course semester sec day start_time end_time room_no
    then (false, table)
  else
    (true, table ++
      [⟨course, semester, sec, day, start_time, end_time, subject, faculty, room_no⟩])

/-- Two rows do not double-book a faculty member: if both have the same
non-null faculty and the same day, their intervals do not overlap. -/
def fac_ok (s t : Session) : Bool :=
  match s.faculty, t.faculty with
  | some f, some g =>
    !(decide (f = g) && decide (s.day = t.day) &&
      time_overlap s.start_time s.end_time t.start_time t.end_time)
  | _, _ => true

/-- Two rows do not double-book a section: same (course, semester,
section) key and same day implies non-overlapping intervals. -/
def sec_ok (s t : Session) : Bool :=
  !(decide (s.course = t.course) && decide (s.semester = t.semester) &&
    decide (s.sec = t.sec) && decide (s.day = t.day) &&
    time_overlap s.start_time s.end_time t.start_time t.end_time)

/-- Two rows do not double-book a room: same non-null room and same day
implies non-overlapping intervals. -/
def room_ok (s t : Session) : Bool :=
  match s.room_no, t.room_no with
  | some r, some r2 =>
    !(decide (r = r2) && decide (s.day = t.day) &&
      time_overlap s.start_time s.end_time t.start_time t.end_time)
  | _, _ => true

theorem fac_ok_symm (s t : Session) : fac_ok s t = fac_ok t s := by
  unfold fac_ok
  rcases s.faculty with _ | f <;> rcases t.faculty with _ | g <;> simp
  rw [time_overlap_symm]
  by_cases h1 : f = g <;> by_cases h2 : s.day = t.day <;> simp [h1, h2, eq_comm]

theorem sec_ok_symm (s t : Session) : sec_ok s t = sec_ok t s := by
  unfold sec_ok
  rw [time_overlap_symm]
  by_cases h1 : s.course = t.course <;> by_cases h2 : s.semester = t.semester <;>
    by_cases h3 : s.sec = t.sec <;> by_cases h4 : s.day = t.day <;>
    simp [h1, h2, h3, h4, eq_comm]

theorem room_ok_symm (s t : Session) : room_ok s t = room_ok t s := by
  unfold room_ok
  rcases s.room_no with _ | r <;> rcases t.room_no with _ | r2 <;> simp
  rw [time_overlap_symm]
  by_cases h1 : r = r2 <;> by_cases h2 : s.day = t.day <;> simp [h1, h2, eq_comm]

/-- Invariant carried through a generation run over the list `acc` of
rows that may coexist in storage (the pre-existing table followed by
every session generated so far): the occupancy indexes cover every
row of `acc` (Python's truthiness-based seeding skips empty-string
faculty/room names, hence the two side conditions), `acc` is free of
faculty and section conflicts, and free of room conflicts as long as no
placement has used the busy-room fallback of line 331. -/
def GenInv (st : GenState) (acc : List Session) : Prop :=
  (∀ s ∈ acc, ∀ f, s.faculty = some f → f ≠ "" →
    (s.start_time, s.end_time) ∈ st.occupied_faculty (f, s.day)) ∧
  (∀ s ∈ acc, ∀ r, s.room_no = some r → r ≠ "" →
    (s.start_time, s.end_time) ∈ st.occupied_room (r, s.day)) ∧
  (∀ s ∈ acc,
    (s.start_time, s.end_time) ∈ st.occupied_section (s.course, s.semester, s.sec, s.day)) ∧
  acc.Pairwise (fun s t => fac_ok s t = true ∧ sec_ok s t = true) ∧
  (st.room_fallback = false → acc.Pairwise (fun s t => room_ok s t = true))

theorem GenInv_congr {st st' : GenState} {acc : List Session}
    (hf : st'.occupied_faculty = st.occupied_faculty)
    (hr : st'.occupied_room = st.occupied_room)
    (hs : st'.occupied_section = st.occupied_section)
    (hb : st'.room_fallback = st.room_fallback)
    (h : GenInv st acc) : GenInv st' acc := by
  obtain ⟨h1, h2, h3, h4, h5⟩ := h
  exact ⟨by rw [hf]; exact h1, by rw [hr]; exact h2, by rw [hs]; exact h3, h4,
    by rw [hb]; exact h5⟩

theorem seed_row_room_eq (st : GenState) (s : Session) :
    (seed_row st s).occupied_room =
      match s.room_no with
      | some r =>
        if r = "" then st.occupied_room
        else pushIv st.occupied_room (r, s.day) (s.start_time, s.end_time)
      | none => st.occupied_room := by
  unfold seed_row
  rcases s.room_no with _ | r <;> rcases s.faculty with _ | f <;>
    simp only [] <;> (repeat' split) <;> rfl

theorem seed_row_fac_eq (st : GenState) (s : Session) :
    (seed_row st s).occupied_faculty =
      match s.faculty with
      | some f =>
        if f = "" then st.occupied_faculty
        else pushIv st.occupied_faculty (f, s.day) (s.start_time, s.end_time)
      | none => st.occupied_faculty := by
  unfold seed_row
  rcases s.room_no with _ | r <;> rcases s.faculty with _ | f <;>
    simp only [] <;> (repeat' split) <;> rfl

theorem seed_row_sec_eq (st : GenState) (s : Session) :
    (seed_row st s).occupied_section =
      pushIv st.occupied_section (s.course, s.semester, s.sec, s.day)
        (s.start_time, s.end_time) := by
  unfold seed_row
  rcases s.room_no with _ | r <;> rcases s.faculty with _ | f <;>
    simp only [] <;> (repeat' split) <;> rfl

theorem seed_row_flag (st : GenState) (s : Session) :
    (seed_row st s).room_fallback = st.room_fallback := by
  unfold seed_row
  rcases s.room_no with _ | r <;> rcases s.faculty with _ | f <;>
    simp only [] <;> (repeat' split) <;> rfl

theorem seed_row_mono (st : GenState) (s : Session) :
    (∀ k iv, iv ∈ st.occupied_faculty k → iv ∈ (seed_row st s).occupied_faculty k) ∧
    (∀ k iv, iv ∈ st.occupied_room k → iv ∈ (seed_row st s).occupied_room k) ∧
    (∀ k iv, iv ∈ st.occupied_section k → iv ∈ (seed_row st s).occupied_section k) := by
  refine ⟨fun k iv h => ?_, fun k iv h => ?_, fun k iv h => ?_⟩
  · rw [seed_row_fac_eq]
    rcases s.faculty with _ | f
    · exact h
    · simp only []
      split
      · exact h
      · exact pushIv_mem h
  · rw [seed_row_room_eq]
    rcases s.room_no with _ | r
    · exact h
    · simp only []
      split
      · exact h
      · exact pushIv_mem h
  · rw [seed_row_sec_eq]
    exact pushIv_mem h

theorem seed_row_covers (st : GenState) (s : Session) :
    (∀ f, s.faculty = some f → f ≠ "" →
      (s.start_time, s.end_time) ∈ (seed_row st s).occupied_faculty (f, s.day)) ∧
    (∀ r, s.room_no = some r → r ≠ "" →
      (s.start_time, s.end_time) ∈ (seed_row st s).occupied_room (r, s.day)) ∧
    (s.start_time, s.end_time) ∈
      (seed_row st s).occupied_section (s.course, s.semester, s.sec, s.day) := by
  refine ⟨fun f hf hne => ?_, fun r hr hne => ?_, ?_⟩
  · rw [seed_row_fac_eq, hf]
    simp only [if_neg hne]
    exact pushIv_mem_self _ _ _
  · rw [seed_row_room_eq, hr]
    simp only [if_neg hne]
    exact pushIv_mem_self _ _ _
  · rw [seed_row_sec_eq]
    exact pushIv_mem_self _ _ _

theorem seed_fold_spec (l : List Session) : ∀ st0 : GenState,
    (∀ k iv, iv ∈ st0.occupied_faculty k → iv ∈ (l.foldl seed_row st0).occupied_faculty k) ∧
    (∀ k iv, iv ∈ st0.occupied_room k → iv ∈ (l.foldl seed_row st0).occupied_room k) ∧
    (∀ k iv, iv ∈ st0.occupied_section k → iv ∈ (l.foldl seed_row st0).occupied_section k) ∧
    (l.foldl seed_row st0).room_fallback = st0.room_fallback ∧
    (∀ s ∈ l, ∀ f, s.faculty = some f → f ≠ "" →
      (s.start_time, s.end_time) ∈ (l.foldl seed_row st0).occupied_faculty (f, s.day)) ∧
    (∀ s ∈ l, ∀ r, s.room_no = some r → r ≠ "" →
      (s.start_time, s.end_time) ∈ (l.foldl seed_row st0).occupied_room (r, s.day)) ∧
    (∀ s ∈ l, (s.start_time, s.end_time) ∈
      (l.foldl seed_row st0).occupied_section (s.course, s.semester, s.sec, s.day)) := by
  induction l with
  | nil => intro st0; refine ⟨fun k iv h => h, fun k iv h => h, fun k iv h => h, rfl, ?_, ?_, ?_⟩ <;> simp
  | cons s rest ih =>
    intro st0
    obtain ⟨ihf, ihr, ihs, ihb, ihcf, ihcr, ihcs⟩ := ih (seed_row st0 s)
    obtain ⟨mf, mr, ms⟩ := seed_row_mono st0 s
    obtain ⟨cf, cr, cs⟩ := seed_row_covers st0 s
    refine ⟨fun k iv h => ihf k iv (mf k iv h),
            fun k iv h => ihr k iv (mr k iv h),
            fun k iv h => ihs k iv (ms k iv h),
            by rw [List.foldl_cons, ihb, seed_row_flag],
            ?_, ?_, ?_⟩
    · intro t ht f hf hne
      rcases List.mem_cons.mp ht with rfl | ht'
      · exact ihf _ _ (cf f hf hne)
      · exact ihcf t ht' f hf hne
    · intro t ht r hr hne
      rcases List.mem_cons.mp ht with rfl | ht'
      · exact ihr _ _ (cr r hr hne)
      · exact ihcr t ht' r hr hne
    · intro t ht
      rcases List.mem_cons.mp ht with rfl | ht'
      · exact ihs _ _ cs
      · exact ihcs t ht'

theorem seed_state_flag (table : List Session) (rnd : List Nat) :
    (seed_state table rnd).room_fallback = false := by
  unfold seed_state
  exact (seed_fold_spec table _).2.2.2.1

/-- At the start of a run, the seeded state satisfies the generation
invariant relative to the pre-existing table, provided the table itself
is free of conflicts. -/
theorem seed_state_GenInv (table : List Session) (rnd : List Nat)
    (hfs : table.Pairwise (fun s t => fac_ok s t = true ∧ sec_ok s t = true))
    (hroom : table.Pairwise (fun s t => room_ok s t = true)) :
    GenInv (seed_state table rnd) table := by
  obtain ⟨_, _, _, _, hcf, hcr, hcs⟩ := seed_fold_spec table
    { occupied_room := fun _ => [], occupied_faculty := fun _ => [],
      occupied_section := fun _ => [],
      faculty_load := fun f => (table.filter (fun s => decide (s.faculty = some f))).length,
      rnd := rnd, room_fallback := false }
  exact ⟨hcf, hcr, hcs, hfs, fun _ => hroom⟩

theorem bool_not_true {b : Bool} (h : ¬b = true) : b = false := by
  cases b
  · rfl
  · exact absurd rfl h

theorem fac_ok_of_checked {q : Session} {occ : String × String → List Interval}
    {faculty d a b : String}
    (hq : ∀ f, q.faculty = some f → f ≠ "" → (q.start_time, q.end_time) ∈ occ (f, q.day))
    (hfree : overlapsAny a b (occ (faculty, d)) = false)
    (hfne : faculty ≠ "")
    (p : Session) (hpf : p.faculty = some faculty) (hpd : p.day = d)
    (hpa : p.start_time = a) (hpb : p.end_time = b) :
    fac_ok q p = true := by
  rcases hqf : q.faculty with _ | g
  · simp [fac_ok, hqf, hpf]
  · simp only [fac_ok, hqf, hpf]
    by_cases hg : g = faculty
    · by_cases hd : q.day = p.day
      · have hmem := hq g hqf (hg ▸ hfne)
        rw [hg, hd, hpd] at hmem
        have hov := overlapsAny_eq_false hfree _ hmem
        rw [time_overlap_symm] at hov
        simp only [hpa, hpb] at hov ⊢
        simp [hov]
      · simp [hd]
    · simp [hg]

theorem sec_ok_of_checked {q : Session} {occ : String × Nat × String × String → List Interval}
    {course : String} {semester : Nat} {sec d a b : String}
    (hq : (q.start_time, q.end_time) ∈ occ (q.course, q.semester, q.sec, q.day))
    (hfree : overlapsAny a b (occ (course, semester, sec, d)) = false)
    (p : Session) (hpc : p.course = course) (hpm : p.semester = semester)
    (hps : p.sec = sec) (hpd : p.day = d) (hpa : p.start_time = a) (hpb : p.end_time = b) :
    sec_ok q p = true := by
  simp only [sec_ok]
  by_cases h1 : q.course = p.course
  · by_cases h2 : q.semester = p.semester
    · by_cases h3 : q.sec = p.sec
      · by_cases h4 : q.day = p.day
        · have hmem := hq
          rw [h1, h2, h3, h4, hpc, hpm, hps, hpd] at hmem
          have hov := overlapsAny_eq_false hfree _ hmem
          rw [time_overlap_symm] at hov
          simp only [hpa, hpb] at hov ⊢
          simp [hov]
        · simp [h4]
      · simp [h3]
    · simp [h2]
  · simp [h1]

theorem room_ok_of_checked {q : Session} {occ : String × String → List Interval}
    {room d a b : String}
    (hq : ∀ r, q.room_no = some r → r ≠ "" → (q.start_time, q.end_time) ∈ occ (r, q.day))
    (hfree : overlapsAny a b (occ (room, d)) = false)
    (hrne : room ≠ "")
    (p : Session) (hpr : p.room_no = some room) (hpd : p.day = d)
    (hpa : p.start_time = a) (hpb : p.end_time = b) :
    room_ok q p = true := by
  rcases hqr : q.room_no with _ | g
  · simp [room_ok, hqr, hpr]
  · simp only [room_ok, hqr, hpr]
    by_cases hg : g = room
    · by_cases hd : q.day = p.day
      · have hmem := hq g hqr (hg ▸ hrne)
        rw [hg, hd, hpd] at hmem
        have hov := overlapsAny_eq_false hfree _ hmem
        rw [time_overlap_symm] at hov
        simp only [hpa, hpb] at hov ⊢
        simp [hov]
      · simp [hd]
    · simp [hg]

theorem attemptFinish_spec (cfg : Config) (course : String) (semester : Nat) (sec : String)
    (subj d : String) (slot : Interval) (rest : List (String × Interval))
    (faculty : String) (rnd : List Nat) (ss : SubjState)
    (out : SubjState × Option Session × Bool)
    (hre : "" ∉ cfg.rooms)
    (hfree : overlapsAny slot.1 slot.2 (ss.st.occupied_faculty (faculty, d)) = false)
    (hfne : faculty ≠ "")
    (hout : attemptFinish cfg course semester sec subj d slot rest faculty rnd ss = out) :
    out.1.inserts = ss.inserts ++ out.2.1.toList ∧
    out.2.2 = false ∧
    (∀ p ∈ out.2.1.toList,
      p.course = course ∧ p.semester = semester ∧ p.sec = sec ∧ p.subject = subj) ∧
    (∀ acc, GenInv ss.st acc → GenInv out.1.st (acc ++ out.2.1.toList)) := by
  simp only [attemptFinish] at hout
  by_cases hsec : overlapsAny slot.1 slot.2
      (ss.st.occupied_section (course, semester, sec, d)) = true
  · rw [if_pos hsec] at hout
    subst hout
    refine ⟨by simp, rfl, by simp, ?_⟩
    intro acc hInv
    simp only [Option.toList_none, List.append_nil]
    exact GenInv_congr rfl rfl rfl rfl hInv
  · rw [if_neg hsec] at hout
    have hsec' : overlapsAny slot.1 slot.2
        (ss.st.occupied_section (course, semester, sec, d)) = false := bool_not_true hsec
    by_cases hfall : (cfg.rooms.filter
        (fun r => !overlapsAny slot.1 slot.2 (ss.st.occupied_room (r, d)))).isEmpty = true
    · rw [if_pos hfall] at hout
      subst hout
      refine ⟨by simp, rfl, by simp, ?_⟩
      intro acc hInv
      obtain ⟨h1, h2, h3, h4, h5⟩ := hInv
      dsimp only [Option.toList]
      refine ⟨?_, ?_, ?_, ?_, ?_⟩
      · intro s hs f hf hne
        rcases List.mem_append.mp hs with hs' | hs'
        · exact pushIv_mem (h1 s hs' f hf hne)
        · rw [List.mem_singleton] at hs'
          subst hs'
          cases hf
          exact pushIv_mem_self _ _ _
      · intro s hs r hr hne
        rcases List.mem_append.mp hs with hs' | hs'
        · exact pushIv_mem (h2 s hs' r hr hne)
        · rw [List.mem_singleton] at hs'
          subst hs'
          cases hr
          exact pushIv_mem_self _ _ _
      · intro s hs
        rcases List.mem_append.mp hs with hs' | hs'
        · exact pushIv_mem (h3 s hs')
        · rw [List.mem_singleton] at hs'
          subst hs'
          exact pushIv_mem_self _ _ _
      · rw [List.pairwise_append]
        refine ⟨h4, by simp, ?_⟩
        intro q hq p' hp'
        rw [List.mem_singleton] at hp'
        subst hp'
        constructor
        · apply fac_ok_of_checked (fun f hf hne => h1 q hq f hf hne) hfree hfne <;> rfl
        · apply sec_ok_of_checked (h3 q hq) hsec' <;> rfl
      · intro hflag
        rw [hfall, Bool.or_true] at hflag
        exact absurd hflag (by simp)
    · rw [if_neg hfall] at hout
      have hfall' : (cfg.rooms.filter
          (fun r => !overlapsAny slot.1 slot.2 (ss.st.occupied_room (r, d)))).isEmpty = false :=
        bool_not_true hfall
      have hfr_ne : cfg.rooms.filter
          (fun r => !overlapsAny slot.1 slot.2 (ss.st.occupied_room (r, d))) ≠ [] := by
        intro hnil
        rw [hnil] at hfall'
        simp at hfall'
      have hchoice := choice_mem _ "" ((take1 rnd).1) hfr_ne
      have hch := List.mem_filter.mp hchoice
      have hroom_mem : choice (cfg.rooms.filter
          (fun r => !overlapsAny slot.1 slot.2 (ss.st.occupied_room (r, d)))) ""
          ((take1 rnd).1) ∈ cfg.rooms := hch.1
      have hroom_free : overlapsAny slot.1 slot.2 (ss.st.occupied_room
          ((choice (cfg.rooms.filter
            (fun r => !overlapsAny slot.1 slot.2 (ss.st.occupied_room (r, d)))) ""
            ((take1 rnd).1)), d)) = false := by
        have := hch.2
        simp only [Bool.not_eq_true'] at this
        exact this
      have hroom_ne : choice (cfg.rooms.filter
          (fun r => !overlapsAny slot.1 slot.2 (ss.st.occupied_room (r, d)))) ""
          ((take1 rnd).1) ≠ "" := by
        intro hcontra
        rw [hcontra] at hroom_mem
        exact hre hroom_mem
      subst hout
      refine ⟨by simp, rfl, by simp, ?_⟩
      intro acc hInv
      obtain ⟨h1, h2, h3, h4, h5⟩ := hInv
      dsimp only [Option.toList]
      refine ⟨?_, ?_, ?_, ?_, ?_⟩
      · intro s hs f hf hne
        rcases List.mem_append.mp hs with hs' | hs'
        · exact pushIv_mem (h1 s hs' f hf hne)
        · rw [List.mem_singleton] at hs'
          subst hs'
          cases hf
          exact pushIv_mem_self _ _ _
      · intro s hs r hr hne
        rcases List.mem_append.mp hs with hs' | hs'
        · exact pushIv_mem (h2 s hs' r hr hne)
        · rw [List.mem_singleton] at hs'
          subst hs'
          cases hr
          exact pushIv_mem_self _ _ _
      · intro s hs
        rcases List.mem_append.mp hs with hs' | hs'
        · exact pushIv_mem (h3 s hs')
        · rw [List.mem_singleton] at hs'
          subst hs'
          exact pushIv_mem_self _ _ _
      · rw [List.pairwise_append]
        refine ⟨h4, by simp, ?_⟩
        intro q hq p' hp'
        rw [List.mem_singleton] at hp'
        subst hp'
        constructor
        · apply fac_ok_of_checked (fun f hf hne => h1 q hq f hf hne) hfree hfne <;> rfl
        · apply sec_ok_of_checked (h3 q hq) hsec' <;> rfl
      · intro hflag
        rw [hfall', Bool.or_false] at hflag
        rw [List.pairwise_append]
        refine ⟨h5 hflag, by simp, ?_⟩
        intro q hq p' hp'
        rw [List.mem_singleton] at hp'
        subst hp'
        apply room_ok_of_checked (fun r hr hne => h2 q hq r hr hne) hroom_free hroom_ne <;> rfl

theorem attemptStep_spec (cfg : Config) (course : String) (semester : Nat) (sec : String)
    (subj : String) (ss : SubjState) (out : SubjState × Option Session × Bool)
    (hpool : cfg.sample_faculty ≠ []) (hfe : "" ∉ cfg.sample_faculty)
    (hre : "" ∉ cfg.rooms)
    (hout : attemptStep cfg course semester sec subj ss = out) :
    out.1.inserts = ss.inserts ++ out.2.1.toList ∧
    (out.2.2 = true → out.2.1 = none) ∧
    (∀ p ∈ out.2.1.toList,
      p.course = course ∧ p.semester = semester ∧ p.sec = sec ∧ p.subject = subj) ∧
    (∀ acc, GenInv ss.st acc → GenInv out.1.st (acc ++ out.2.1.toList)) := by
  rcases hq : ss.queue with _ | ⟨⟨d, slot⟩, rest⟩
  · simp only [attemptStep, hq] at hout
    subst hout
    refine ⟨by simp, fun _ => rfl, by simp, ?_⟩
    intro acc hInv
    dsimp only [Option.toList]
    rw [List.append_nil]
    exact hInv
  · simp only [attemptStep, hq] at hout
    by_cases hloc : overlapsAny slot.1 slot.2 (ss.local_occ d) = true
    · rw [if_pos hloc] at hout
      subst hout
      refine ⟨by simp, fun _ => rfl, by simp, ?_⟩
      intro acc hInv
      dsimp only [Option.toList]
      rw [List.append_nil]
      exact GenInv_congr rfl rfl rfl rfl hInv
    · rw [if_neg hloc] at hout
      by_cases hbusy : overlapsAny slot.1 slot.2 (ss.st.occupied_faculty
          (pick_faculty_balanced cfg.sample_faculty ss.st.faculty_load
            (take1 ss.st.rnd).1, d)) = true
      · rw [if_pos hbusy] at hout
        by_cases hav : (cfg.sample_faculty.filter
            (fun f => !overlapsAny slot.1 slot.2 (ss.st.occupied_faculty (f, d)))).isEmpty = true
        · rw [if_pos hav] at hout
          subst hout
          refine ⟨by simp, fun _ => rfl, by simp, ?_⟩
          intro acc hInv
          dsimp only [Option.toList]
          rw [List.append_nil]
          exact GenInv_congr rfl rfl rfl rfl hInv
        · rw [if_neg hav] at hout
          have hne : cfg.sample_faculty.filter
              (fun f => !overlapsAny slot.1 slot.2 (ss.st.occupied_faculty (f, d))) ≠ [] := by
            intro hnil
            rw [hnil] at hav
            exact hav rfl
          have hch := List.mem_filter.mp
            (choice_mem _ "" ((take1 (take1 ss.st.rnd).2).1) hne)
          have hfree : overlapsAny slot.1 slot.2 (ss.st.occupied_faculty
              ((choice (cfg.sample_faculty.filter
                (fun f => !overlapsAny slot.1 slot.2 (ss.st.occupied_faculty (f, d)))) ""
                ((take1 (take1 ss.st.rnd).2).1)), d)) = false := by
            have := hch.2
            simpa using this
          have hfne : choice (cfg.sample_faculty.filter
              (fun f => !overlapsAny slot.1 slot.2 (ss.st.occupied_faculty (f, d)))) ""
              ((take1 (take1 ss.st.rnd).2).1) ≠ "" := by
            intro hc
            rw [hc] at hch
            exact hfe hch.1
          have hF := attemptFinish_spec cfg course semester sec subj d slot rest _ _ ss out
            hre hfree hfne hout
          refine ⟨hF.1, ?_, hF.2.2.1, hF.2.2.2⟩
          intro h
          rw [hF.2.1] at h
          cases h
      · rw [if_neg hbusy] at hout
        have hfree := bool_not_true hbusy
        have hspec := pick_faculty_balanced_spec cfg.sample_faculty ss.st.faculty_load
          ((take1 ss.st.rnd).1) hpool
        have hfne : pick_faculty_balanced cfg.sample_faculty ss.st.faculty_load
            ((take1 ss.st.rnd).1) ≠ "" := by
          intro hc
          rw [hc] at hspec
          exact hfe hspec.1
        have hF := attemptFinish_spec cfg course semester sec subj d slot rest _ _ ss out
          hre hfree hfne hout
        refine ⟨hF.1, ?_, hF.2.2.1, hF.2.2.2⟩
        intro h
        rw [hF.2.1] at h
        cases h

theorem place_loop_spec (cfg : Config) (course : String) (semester : Nat) (sec : String)
    (subj : String)
    (hpool : cfg.sample_faculty ≠ []) (hfe : "" ∉ cfg.sample_faculty)
    (hre : "" ∉ cfg.rooms) :
    ∀ (fuel needed : Nat) (ss : SubjState),
      ∃ ps : List Session,
        (place_loop cfg course semester sec subj fuel needed ss).1.inserts =
          ss.inserts ++ ps ∧
        (∀ p ∈ ps, p.course = course ∧ p.semester = semester ∧ p.sec = sec ∧
          p.subject = subj) ∧
        (∀ acc, GenInv ss.st acc →
          GenInv (place_loop cfg course semester sec subj fuel needed ss).1.st (acc ++ ps)) ∧
        (place_loop cfg course semester sec subj fuel needed ss).2.1 + ps.length = needed ∧
        (place_loop cfg course semester sec subj fuel needed ss).2.2 ≤ fuel := by
  intro fuel
  induction fuel with
  | zero =>
    intro needed ss
    refine ⟨[], by simp [place_loop], by simp, ?_, by simp [place_loop], by simp [place_loop]⟩
    intro acc h
    simpa [place_loop] using h
  | succ k ih =>
    intro needed ss
    by_cases h0 : needed = 0
    · subst h0
      refine ⟨[], by simp [place_loop], by simp, ?_, by simp [place_loop], by simp [place_loop]⟩
      intro acc h
      simpa [place_loop] using h
    · have hstep := attemptStep_spec cfg course semester sec subj ss
        (attemptStep cfg course semester sec subj ss) hpool hfe hre rfl
      by_cases hbrk : (attemptStep cfg course semester sec subj ss).2.2 = true
      · have hnone := hstep.2.1 hbrk
        have hfold : place_loop cfg course semester sec subj (k + 1) needed ss =
            ((attemptStep cfg course semester sec subj ss).1, needed, 1) := by
          simp only [place_loop]
          rw [if_neg h0]
          simp [hbrk]
        refine ⟨[], ?_, by simp, ?_, ?_, ?_⟩
        · rw [hfold]
          have := hstep.1
          rw [hnone] at this
          simpa using this
        · intro acc h
          rw [hfold]
          have := hstep.2.2.2 acc h
          rw [hnone] at this
          simpa using this
        · rw [hfold]
          simp
        · rw [hfold]
          simp
      · have hbrk' : (attemptStep cfg course semester sec subj ss).2.2 = false :=
          bool_not_true hbrk
        obtain ⟨ps1, ih1, ih2, ih3, ih4, ih5⟩ :=
          ih (if (attemptStep cfg course semester sec subj ss).2.1.isSome then needed - 1
              else needed)
            (attemptStep cfg course semester sec subj ss).1
        have hfold : place_loop cfg course semester sec subj (k + 1) needed ss =
            ((place_loop cfg course semester sec subj k
                (if (attemptStep cfg course semester sec subj ss).2.1.isSome then needed - 1
                 else needed)
                (attemptStep cfg course semester sec subj ss).1).1,
             (place_loop cfg course semester sec subj k
                (if (attemptStep cfg course semester sec subj ss).2.1.isSome then needed - 1
                 else needed)
                (attemptStep cfg course semester sec subj ss).1).2.1,
             (place_loop cfg course semester sec subj k
                (if (attemptStep cfg course semester sec subj ss).2.1.isSome then needed - 1
                 else needed)
                (attemptStep cfg course semester sec subj ss).1).2.2 + 1) := by
          simp only [place_loop]
          rw [if_neg h0]
          simp [hbrk']
        refine ⟨(attemptStep cfg course semester sec subj ss).2.1.toList ++ ps1,
          ?_, ?_, ?_, ?_, ?_⟩
        · rw [hfold]
          dsimp only
          rw [ih1, hstep.1, List.append_assoc]
        · intro p hp
          rcases List.mem_append.mp hp with hp' | hp'
          · exact hstep.2.2.1 p hp'
          · exact ih2 p hp'
        · intro acc h
          rw [hfold]
          dsimp only
          have h1 := hstep.2.2.2 acc h
          have h2 := ih3 _ h1
          rw [List.append_assoc] at h2
          exact h2
        · rw [hfold]
          dsimp only
          rcases hsome : (attemptStep cfg course semester sec subj ss).2.1 with _ | p
          · rw [hsome] at ih4
            simp only [hsome, Option.isSome_none, Bool.false_eq_true, if_false] at ih4 ⊢
            simp only [Option.toList_none, List.nil_append]
            omega
          · rw [hsome] at ih4
            simp only [hsome, Option.isSome_some, if_true] at ih4 ⊢
            simp only [Option.toList_some, List.length_append, List.length_cons,
              List.length_nil]
            omega
        · rw [hfold]
          dsimp only
          omega

theorem schedule_subject_parts (cfg : Config) (course : String) (semester : Nat)
    (sec : String) (ss0 : SubjState) (log0 : List (String × Nat)) (subj : String) :
    (schedule_subject cfg course semester sec (ss0, log0) subj).1.inserts =
      (place_loop cfg course semester sec subj 500 3 ss0).1.inserts ∧
    (schedule_subject cfg course semester sec (ss0, log0) subj).2 =
      (if 0 < (place_loop cfg course semester sec subj 500 3 ss0).2.1
       then log0 ++ [(subj, (place_loop cfg course semester sec subj 500 3 ss0).2.1)]
       else log0) ∧
    (schedule_subject cfg course semester sec (ss0, log0) subj).1.st.occupied_faculty =
      (place_loop cfg course semester sec subj 500 3 ss0).1.st.occupied_faculty ∧
    (schedule_subject cfg course semester sec (ss0, log0) subj).1.st.occupied_room =
      (place_loop cfg course semester sec subj 500 3 ss0).1.st.occupied_room ∧
    (schedule_subject cfg course semester sec (ss0, log0) subj).1.st.occupied_section =
      (place_loop cfg course semester sec subj 500 3 ss0).1.st.occupied_section ∧
    (schedule_subject cfg course semester sec (ss0, log0) subj).1.st.room_fallback =
      (place_loop cfg course semester sec subj 500 3 ss0).1.st.room_fallback := by
  simp only [schedule_subject]
  by_cases h5 : (place_loop cfg course semester sec subj 500 3 ss0).1.queue.length < 5 <;>
    simp [h5]

theorem schedule_fold_spec (cfg : Config) (course : String) (semester : Nat) (sec : String)
    (hpool : cfg.sample_faculty ≠ []) (hfe : "" ∉ cfg.sample_faculty)
    (hre : "" ∉ cfg.rooms) :
    ∀ (subjects : List String) (ss0 : SubjState) (log0 : List (String × Nat)),
      ∃ (ps : List Session) (nl : List (String × Nat)),
        (subjects.foldl (schedule_subject cfg course semester sec) (ss0, log0)).1.inserts =
          ss0.inserts ++ ps ∧
        (subjects.foldl (schedule_subject cfg course semester sec) (ss0, log0)).2 =
          log0 ++ nl ∧
        (∀ p ∈ ps, p.course = course ∧ p.semester = semester ∧ p.sec = sec ∧
          p.subject ∈ subjects) ∧
        (∀ acc, GenInv ss0.st acc →
          GenInv (subjects.foldl (schedule_subject cfg course semester sec)
            (ss0, log0)).1.st (acc ++ ps)) ∧
        (∀ x ∈ nl, x.1 ∈ subjects) ∧
        (subjects.Nodup → ∀ subj ∈ subjects, (∀ rem, (subj, rem) ∉ nl) →
          (ps.filter (fun p => decide (p.subject = subj))).length = 3) := by
  intro subjects
  induction subjects with
  | nil =>
    intro ss0 log0
    refine ⟨[], [], by simp, by simp, by simp, ?_, by simp, by simp⟩
    intro acc h
    simpa using h
  | cons subj rest ih =>
    intro ss0 log0
    obtain ⟨ps0, hp1, hp2, hp3, hp4, _⟩ :=
      place_loop_spec cfg course semester sec subj hpool hfe hre 500 3 ss0
    obtain ⟨hs1, hs2, hs3, hs4, hs5, hs6⟩ :=
      schedule_subject_parts cfg course semester sec ss0 log0 subj
    obtain ⟨ps1, nl1, ih1, ih2, ih3, ih4, ih5, ih6⟩ :=
      ih (schedule_subject cfg course semester sec (ss0, log0) subj).1
        (schedule_subject cfg course semester sec (ss0, log0) subj).2
    have hfold : (subj :: rest).foldl (schedule_subject cfg course semester sec)
        (ss0, log0) = rest.foldl (schedule_subject cfg course semester sec)
        ((schedule_subject cfg course semester sec (ss0, log0) subj).1,
         (schedule_subject cfg course semester sec (ss0, log0) subj).2) := by
      rw [List.foldl_cons]
    refine ⟨ps0 ++ ps1,
      (if 0 < (place_loop cfg course semester sec subj 500 3 ss0).2.1
       then [(subj, (place_loop cfg course semester sec subj 500 3 ss0).2.1)] else []) ++ nl1,
      ?_, ?_, ?_, ?_, ?_, ?_⟩
    · rw [hfold, ih1, hs1, hp1, List.append_assoc]
    · rw [hfold, ih2, hs2]
      by_cases hpos : 0 < (place_loop cfg course semester sec subj 500 3 ss0).2.1 <;>
        simp [hpos]
    · intro p hp
      rcases List.mem_append.mp hp with hp' | hp'
      · obtain ⟨a, b, c, d⟩ := hp2 p hp'
        exact ⟨a, b, c, by simp [d]⟩
      · obtain ⟨a, b, c, d⟩ := ih3 p hp'
        exact ⟨a, b, c, List.mem_cons_of_mem _ d⟩
    · intro acc h
      rw [hfold]
      have h1 := hp3 acc h
      have h2 : GenInv (schedule_subject cfg course semester sec (ss0, log0) subj).1.st
          (acc ++ ps0) := GenInv_congr hs3 hs4 hs5 hs6 h1
      have h3 := ih4 _ h2
      rw [List.append_assoc] at h3
      exact h3
    · intro x hx
      rcases List.mem_append.mp hx with hx' | hx'
      · rcases List.mem_ite_nil_right.mp hx' with ⟨_, hx2⟩
        rw [List.mem_singleton] at hx2
        subst hx2
        simp
      · exact List.mem_cons_of_mem _ (ih5 x hx')
    · intro hnd subj' hmem hnot
      rw [List.filter_append, List.length_append]
      rcases List.mem_cons.mp hmem with rfl | hmem'
      · have hneed0 : (place_loop cfg course semester sec subj' 500 3 ss0).2.1 = 0 := by
          by_contra hpos
          have hpos' : 0 < (place_loop cfg course semester sec subj' 500 3 ss0).2.1 :=
            Nat.pos_of_ne_zero hpos
          exact hnot (place_loop cfg course semester sec subj' 500 3 ss0).2.1
            (List.mem_append.mpr (Or.inl (by simp [hpos'])))
        have hps0 : ps0.filter (fun p => decide (p.subject = subj')) = ps0 :=
          List.filter_eq_self.mpr (fun p hp => by simp [(hp2 p hp).2.2.2])
        have hps1 : ps1.filter (fun p => decide (p.subject = subj')) = [] := by
          rw [List.filter_eq_nil_iff]
          intro p hp
          have hsub := (ih3 p hp).2.2.2
          have hnotin : subj' ∉ rest := (List.nodup_cons.mp hnd).1
          simp only [decide_eq_true_eq]
          intro hcontra
          rw [hcontra] at hsub
          exact hnotin hsub
        rw [hps0, hps1]
        simp only [List.length_nil]
        omega
      · have hne : subj ≠ subj' := by
          intro h
          exact (List.nodup_cons.mp hnd).1 (h ▸ hmem')
        have hps0 : ps0.filter (fun p => decide (p.subject = subj')) = [] := by
          rw [List.filter_eq_nil_iff]
          intro p hp
          have hsub := (hp2 p hp).2.2.2
          simp only [decide_eq_true_eq]
          intro hcontra
          rw [hsub] at hcontra
          exact hne hcontra
        have hnot1 : ∀ rem, (subj', rem) ∉ nl1 := by
          intro rem hcontra
          exact hnot rem (List.mem_append.mpr (Or.inr hcontra))
        rw [hps0]
        simp only [List.length_nil]
        have := ih6 (List.nodup_cons.mp hnd).2 subj' hmem' hnot1
        omega

theorem process_key_spec (cfg : Config) (course : String) (semester : Nat) (sec : String)
    (subj_pool : List String) (insert_ok : Bool) (table : List Session) (st : GenState)
    (hpool : cfg.sample_faculty ≠ []) (hfe : "" ∉ cfg.sample_faculty)
    (hre : "" ∉ cfg.rooms) :
    (∀ p ∈ (process_key cfg course semester sec subj_pool insert_ok table st).inserts,
      p.course = course ∧ p.semester = semester ∧ p.sec = sec ∧
      p.subject ∈ (process_key cfg course semester sec subj_pool insert_ok table st).scheduled) ∧
    (∀ acc, GenInv st acc →
      GenInv (process_key cfg course semester sec subj_pool insert_ok table st).st
        (acc ++ (process_key cfg course semester sec subj_pool insert_ok table st).inserts)) ∧
    (process_key cfg course semester sec subj_pool insert_ok table st).table =
      (if insert_ok then
        table.filter (fun s => !keyMatches course semester sec s) ++
          (process_key cfg course semester sec subj_pool insert_ok table st).inserts
       else table) := by
  obtain ⟨ps, nl, h1, h2, h3, h4, h5, h6⟩ :=
    schedule_fold_spec cfg course semester sec hpool hfe hre
      (trim_subjects cfg.days.length cfg.time_slots.length (shuffle st.rnd subj_pool).1).1
      { queue := (shuffle (shuffle st.rnd subj_pool).2 (day_slot_pairs_all cfg)).1,
        local_occ := fun _ => [],
        st := { st with rnd := (shuffle (shuffle st.rnd subj_pool).2 (day_slot_pairs_all cfg)).2 },
        inserts := [] } []
  rw [List.nil_append] at h1
  simp only [process_key]
  refine ⟨?_, ?_, trivial⟩
  · rw [h1]
    exact h3
  · intro acc h
    rw [h1]
    exact h4 acc (GenInv_congr rfl rfl rfl rfl h)

theorem run_keys_inv (cfg : Config) (hpool : cfg.sample_faculty ≠ [])
    (hfe : "" ∉ cfg.sample_faculty) (hre : "" ∉ cfg.rooms) :
    ∀ (ks : List (String × Nat × String)) (oks : List Bool) (acc : RunResult)
      (base : List Session),
      GenInv acc.st base → acc.table.Sublist base →
      ∃ base', GenInv (run_keys cfg ks oks acc).st base' ∧
        (run_keys cfg ks oks acc).table.Sublist base' := by
  intro ks
  induction ks with
  | nil =>
    intro oks acc base h1 h2
    exact ⟨base, by simpa [run_keys] using h1, by simpa [run_keys] using h2⟩
  | cons k ks ih =>
    obtain ⟨c, sem, s⟩ := k
    intro oks acc base h1 h2
    obtain ⟨hk1, hk2, hk3⟩ := process_key_spec cfg c sem s (subj_pool_for cfg c)
      (takeB oks).1 acc.table acc.st hpool hfe hre
    have hstep : run_keys cfg ((c, sem, s) :: ks) oks acc =
        run_keys cfg ks (takeB oks).2
          { table := (process_key cfg c sem s (subj_pool_for cfg c)
              (takeB oks).1 acc.table acc.st).table,
            st := (process_key cfg c sem s (subj_pool_for cfg c)
              (takeB oks).1 acc.table acc.st).st,
            processed := acc.processed ++ [(c, sem, s)],
            placed := acc.placed ++ (process_key cfg c sem s (subj_pool_for cfg c)
              (takeB oks).1 acc.table acc.st).inserts,
            shortfalls := acc.shortfalls ++ (process_key cfg c sem s (subj_pool_for cfg c)
              (takeB oks).1 acc.table acc.st).shortfalls,
            total_inserts := acc.total_inserts + (process_key cfg c sem s (subj_pool_for cfg c)
              (takeB oks).1 acc.table acc.st).inserts.length } := by
      simp only [run_keys]
    rw [hstep]
    apply ih
    · exact hk2 base h1
    · dsimp only
      rw [hk3]
      by_cases hok : (takeB oks).1 = true
      · rw [if_pos hok]
        exact List.Sublist.append ((List.filter_sublist _).trans h2)
          (List.Sublist.refl _)
      · rw [if_neg hok]
        exact h2.trans (List.sublist_append_left base _)

theorem run_keys_processed (cfg : Config) :
    ∀ (ks : List (String × Nat × String)) (oks : List Bool) (acc : RunResult),
      (run_keys cfg ks oks acc).processed = acc.processed ++ ks := by
  intro ks
  induction ks with
  | nil => intro oks acc; simp [run_keys]
  | cons k ks ih =>
    obtain ⟨c, sem, s⟩ := k
    intro oks acc
    simp only [run_keys]
    rw [ih]
    simp

theorem place_loop_attempts (cfg : Config) (course : String) (semester : Nat)
    (sec : String) (subj : String) :
    ∀ (fuel needed : Nat) (ss : SubjState),
      (place_loop cfg course semester sec subj fuel needed ss).2.2 ≤ fuel := by
  intro fuel
  induction fuel with
  | zero => intro needed ss; simp [place_loop]
  | succ k ih =>
    intro needed ss
    by_cases h0 : needed = 0
    · simp [place_loop, h0]
    · by_cases hbrk : (attemptStep cfg course semester sec subj ss).2.2 = true
      · have : place_loop cfg course semester sec subj (k + 1) needed ss =
            ((attemptStep cfg course semester sec subj ss).1, needed, 1) := by
          simp only [place_loop]
          rw [if_neg h0]
          simp [hbrk]
        rw [this]
        simp
      · have hbrk' : (attemptStep cfg course semester sec subj ss).2.2 = false :=
          bool_not_true hbrk
        have : place_loop cfg course semester sec subj (k + 1) needed ss =
            ((place_loop cfg course semester sec subj k
                (if (attemptStep cfg course semester sec subj ss).2.1.isSome then needed - 1
                 else needed)
                (attemptStep cfg course semester sec subj ss).1).1,
             (place_loop cfg course semester sec subj k
                (if (attemptStep cfg course semester sec subj ss).2.1.isSome then needed - 1
                 else needed)
                (attemptStep cfg course semester sec subj ss).1).2.1,
             (place_loop cfg course semester sec subj k
                (if (attemptStep cfg course semester sec subj ss).2.1.isSome then needed - 1
                 else needed)
                (attemptStep cfg course semester sec subj ss).1).2.2 + 1) := by
          simp only [place_loop]
          rw [if_neg h0]
          simp [hbrk']
        rw [this]
        have := ih (if (attemptStep cfg course semester sec subj ss).2.1.isSome then needed - 1
          else needed) (attemptStep cfg course semester sec subj ss).1
        dsimp only
        omega

theorem seed_row_load_eq (st : GenState) (s : Session) :
    (seed_row st s).faculty_load = st.faculty_load := by
  unfold seed_row
  rcases s.room_no with _ | r <;> rcases s.faculty with _ | f <;>
    simp only [] <;> (repeat' split) <;> rfl

theorem seed_fold_load (l : List Session) : ∀ st0 : GenState,
    (l.foldl seed_row st0).faculty_load = st0.faculty_load := by
  induction l with
  | nil => intro st0; rfl
  | cons s rest ih =>
    intro st0
    rw [List.foldl_cons, ih, seed_row_load_eq]

theorem attemptFinish_faculty (cfg : Config) (course : String) (semester : Nat)
    (sec : String) (subj d : String) (slot : Interval) (rest : List (String × Interval))
    (faculty : String) (rnd : List Nat) (ss : SubjState) (p : Session)
    (h : (attemptFinish cfg course semester sec subj d slot rest faculty rnd ss).2.1 =
      some p) : p.faculty = some faculty := by
  simp only [attemptFinish] at h
  by_cases hsec : overlapsAny slot.1 slot.2
      (ss.st.occupied_section (course, semester, sec, d)) = true
  · rw [if_pos hsec] at h
    cases h
  · rw [if_neg hsec] at h
    dsimp only at h
    injection h with h2
    rw [← h2]

/-- A minimal configuration for concrete evaluation: one day, one time
slot, a one-subject catalog, two faculty, a single room. -/
def miniCfg : Config :=
  { days := ["Mon"], time_slots := [("09:00", "10:00")],
    sample_subjects := fun _ => some ["S"],
    sample_faculty := ["F", "G"], rooms := ["R1"] }

/-- A three-day variant of `miniCfg` with enough capacity for the full
three sessions of its single subject. -/
def triCfg : Config :=
  { days := ["Mon", "Tue", "Wed"], time_slots := [("09:00", "10:00")],
    sample_subjects := fun _ => some ["S"],
    sample_faculty := ["F", "G"], rooms := ["R1", "R2", "R3"] }

/-- A one-row pre-existing table whose only session belongs to the very
key that is regenerated in the C4 counterexample. -/
def c4Table : List Session :=
  [⟨"C", 1, "A", "Mon", "09:00", "10:00", "S", some "F", some "R1"⟩]

/-- C3 (counterexample): with a 1-day, 1-slot configuration and two
subjects, the code trims to `max(1, 1 // 3) = 1` subject, not to
`floor(capacity / 3) = 0`, and the scheduled count times 3 (= 3) exceeds
the weekly capacity (= 1), refuting the claim for all day/slot values. -/
theorem C3_counterexample :
    ¬ ((trim_subjects 1 1 ["a", "b"]).1.length = (1 * 1) / 3 ∧
       (trim_subjects 1 1 ["a", "b"]).1.length * 3 ≤ 1 * 1) := by decide

/-- C3 (amended): the over-capacity trim keeps `max 1 (capacity / 3)`
subjects; whenever the weekly capacity is at least 3, that equals
`floor(capacity / 3)`, the trim is reported, and the scheduled count
times 3 is at most the capacity (for capacity below 3 a single subject
is still kept, exceeding capacity — the counterexample).  The scheduled
list of `process_key` is exactly the trimmed shuffled pool. -/
theorem C3_capacity_trim_amended (cfg : Config) (course : String) (semester : Nat)
    (sec : String) (subj_pool : List String) (insert_ok : Bool) (table : List Session)
    (st : GenState) (days_len slots_len : Nat) (subjects : List String)
    (hover : days_len * slots_len < subjects.length * 3)
    (h3 : 3 ≤ days_len * slots_len) :
    (trim_subjects days_len slots_len subjects).1.length =
      (days_len * slots_len) / 3 ∧
    (trim_subjects days_len slots_len subjects).1.length * 3 ≤ days_len * slots_len ∧
    (trim_subjects days_len slots_len subjects).2 = true ∧
    (process_key cfg course semester sec subj_pool insert_ok table st).scheduled =
      (trim_subjects cfg.days.length cfg.time_slots.length
        (shuffle st.rnd subj_pool).1).1 := by
  have h1 : 1 ≤ days_len * slots_len / 3 :=
    (Nat.one_le_div_iff (by omega)).mpr h3
  have hlt : days_len * slots_len / 3 < subjects.length :=
    (Nat.div_lt_iff_lt_mul (by omega)).mpr hover
  have hmax : max 1 (days_len * slots_len / 3) = days_len * slots_len / 3 :=
    Nat.max_eq_right h1
  refine ⟨?_, ?_, ?_, ?_⟩
  · simp only [trim_subjects]
    rw [if_pos hover]
    dsimp only
    rw [List.length_take, hmax]
    exact Nat.min_eq_left (Nat.le_of_lt hlt)
  · simp only [trim_subjects]
    rw [if_pos hover]
    dsimp only
    rw [List.length_take, hmax, Nat.min_eq_left (Nat.le_of_lt hlt)]
    exact Nat.div_mul_le_self _ _
  · simp only [trim_subjects]
    rw [if_pos hover]
  · simp only [process_key]

/-- C3 (witness): a 2-day, 3-slot week with three subjects exceeds
capacity (9 > 6) and is trimmed to exactly 6 / 3 = 2 subjects. -/
theorem C3_capacity_trim_amended_witness :
    (2 * 3 < 3 * 3) ∧ (3 ≤ 2 * 3) ∧
    (trim_subjects 2 3 ["a", "b", "c"]).1.length = (2 * 3) / 3 :=
  ⟨by decide, by decide,
    (C3_capacity_trim_amended miniCfg "C" 1 "A" [] true [] (seed_state [] []) 2 3
      ["a", "b", "c"] (by decide) (by decide)).1⟩

/-- C7: the per-subject placement loop is a total function that consumes
at most 500 attempts (the fuel of `place_loop`), and `schedule_subject`
appends a shortfall log entry exactly when sessions remain unplaced,
then processing simply continues with the next subject. -/
theorem C7_attempt_bound (cfg : Config) (course : String) (semester : Nat) (sec : String)
    (subj : String) (needed : Nat) (ss ss0 : SubjState) (log0 : List (String × Nat)) :
    (place_loop cfg course semester sec subj 500 needed ss).2.2 ≤ 500 ∧
    (schedule_subject cfg course semester sec (ss0, log0) subj).2 =
      (if 0 < (place_loop cfg course semester sec subj 500 3 ss0).2.1
       then log0 ++ [(subj, (place_loop cfg course semester sec subj 500 3 ss0).2.1)]
       else log0) :=
  ⟨place_loop_attempts cfg course semester sec subj 500 needed ss,
   (schedule_subject_parts cfg course semester sec ss0 log0 subj).2.1⟩

/-- C8: whatever the insert-failure oracle answers for each section key,
the run still processes every (course, semester, section) key of the
iteration: a failing batch insert is absorbed locally and generation
continues. -/
theorem C8_failure_isolated (cfg : Config) (course_list : List String) (semesters : Nat)
    (sections : List String) (table : List Session) (rnd : List Nat)
    (insert_oks : List Bool) :
    (auto_generate_timetable cfg course_list semesters sections table rnd
      insert_oks).processed = key_list course_list semesters sections := by
  unfold auto_generate_timetable
  rw [run_keys_processed]
  simp

/-- C9: `generate_single_timetable course semester section` passes the
given semester as the semester COUNT, so it regenerates the keys
(course, 1, section) through (course, semester, section) — every
semester up to the given one, not only the given semester. -/
theorem C9_single_regenerates_all_semesters (cfg : Config) (course : String)
    (semester : Nat) (sec : String) (table : List Session) (rnd : List Nat)
    (insert_oks : List Bool) :
    (generate_single_timetable cfg course semester sec table rnd insert_oks).processed =
      (List.range semester).map (fun i => (course, i + 1, sec)) := by
  unfold generate_single_timetable auto_generate_timetable
  rw [run_keys_processed]
  simp only [key_list]
  simp only [List.flatMap_cons, List.flatMap_nil, List.map_cons, List.map_nil,
    List.append_nil, List.nil_append]
  generalize List.range semester = l
  induction l with
  | nil => simp
  | cons a t ih => simp [ih]

/-- C1 (counterexample): starting from an EMPTY table, generating the
single-subject course for sections "A" and "B" of `miniCfg` (one day,
one slot, one room) books room "R1" twice for the same interval on the
same day: section B finds no free room and line 331 falls back to
`random.choice(ROOMS)`, silently double-booking the room.  The claimed
room/day no-overlap invariant is therefore false. -/
theorem C1_counterexample :
    ¬ ((auto_generate_timetable miniCfg ["C"] 1 ["A", "B"] [] [] []).table.Pairwise
        (fun s t => room_ok s t = true)) := by decide

/-- C1 (amended): provided the pre-existing table already satisfies the
three no-overlap invariants (and the configured pools do not contain
the empty string, which Python's truthiness-based seeding would skip),
the table after a run satisfies the faculty/day and section-key/day
no-overlap invariants, and also the room/day invariant UNLESS some
placement had to use the busy-room fallback of line 331 (the
`room_fallback` flag). -/
theorem C1_no_overlap_amended (cfg : Config) (course_list : List String) (semesters : Nat)
    (sections : List String) (table : List Session) (rnd : List Nat)
    (insert_oks : List Bool)
    (hpool : cfg.sample_faculty ≠ []) (hfe : "" ∉ cfg.sample_faculty)
    (hre : "" ∉ cfg.rooms)
    (hfac0 : table.Pairwise (fun s t => fac_ok s t = true))
    (hsec0 : table.Pairwise (fun s t => sec_ok s t = true))
    (hroom0 : table.Pairwise (fun s t => room_ok s t = true)) :
    (auto_generate_timetable cfg course_list semesters sections table rnd
        insert_oks).table.Pairwise (fun s t => fac_ok s t = true) ∧
    (auto_generate_timetable cfg course_list semesters sections table rnd
        insert_oks).table.Pairwise (fun s t => sec_ok s t = true) ∧
    ((auto_generate_timetable cfg course_list semesters sections table rnd
        insert_oks).st.room_fallback = false →
      (auto_generate_timetable cfg course_list semesters sections table rnd
        insert_oks).table.Pairwise (fun s t => room_ok s t = true)) := by
  have hseed := seed_state_GenInv table rnd (hfac0.and hsec0) hroom0
  obtain ⟨base', hInv, hsub⟩ := run_keys_inv cfg hpool hfe hre
    (key_list course_list semesters sections) insert_oks
    { table := table, st := seed_state table rnd, processed := [], placed := [],
      shortfalls := [], total_inserts := 0 } table hseed (List.Sublist.refl table)
  obtain ⟨_, _, _, h4, h5⟩ := hInv
  unfold auto_generate_timetable
  refine ⟨?_, ?_, ?_⟩
  · exact List.Pairwise.sublist hsub (h4.imp (fun h => h.1))
  · exact List.Pairwise.sublist hsub (h4.imp (fun h => h.2))
  · intro hflag
    exact List.Pairwise.sublist hsub (h5 hflag)

/-- C1 (witness): the amended theorem applied to `miniCfg` with an empty
initial table. -/
theorem C1_no_overlap_amended_witness :
    (miniCfg.sample_faculty ≠ [] ∧ "" ∉ miniCfg.sample_faculty ∧ "" ∉ miniCfg.rooms ∧
      ([] : List Session).Pairwise (fun s t => fac_ok s t = true)) ∧
    (auto_generate_timetable miniCfg ["C"] 1 ["A"] [] [] []).table.Pairwise
      (fun s t => fac_ok s t = true) :=
  ⟨⟨by decide, by decide, by decide, by decide⟩,
   (C1_no_overlap_amended miniCfg ["C"] 1 ["A"] [] [] [] (by decide) (by decide)
     (by decide) (by decide) (by decide) (by decide)).1⟩

/-- C5: regenerating one (course, semester, section) key deletes exactly
the previously persisted rows of that key and inserts only rows of that
key: rows of every other key survive with order and multiplicity intact,
the key's rows after the run are exactly the fresh batch, and a failed
batch insert rolls the whole per-key transaction back (the DELETE of
line 278 included, because the last commit precedes it). -/
theorem C5_frame (cfg : Config) (course : String) (semester : Nat) (sec : String)
    (subj_pool : List String) (table : List Session) (st : GenState)
    (hpool : cfg.sample_faculty ≠ []) (hfe : "" ∉ cfg.sample_faculty)
    (hre : "" ∉ cfg.rooms) :
    ((process_key cfg course semester sec subj_pool true table st).table.filter
        (fun s => !keyMatches course semester sec s) =
      table.filter (fun s => !keyMatches course semester sec s)) ∧
    (∀ p ∈ (process_key cfg course semester sec subj_pool true table st).inserts,
      keyMatches course semester sec p = true) ∧
    ((process_key cfg course semester sec subj_pool true table st).table.filter
        (fun s => keyMatches course semester sec s) =
      (process_key cfg course semester sec subj_pool true table st).inserts) ∧
    ((process_key cfg course semester sec subj_pool false table st).table = table) := by
  obtain ⟨hk1, _, hk3⟩ := process_key_spec cfg course semester sec subj_pool true table st
    hpool hfe hre
  obtain ⟨_, _, hk3f⟩ := process_key_spec cfg course semester sec subj_pool false table st
    hpool hfe hre
  rw [if_pos rfl] at hk3
  have hkeys : ∀ p ∈ (process_key cfg course semester sec subj_pool true table st).inserts,
      keyMatches course semester sec p = true := by
    intro p hp
    obtain ⟨a, b, c, _⟩ := hk1 p hp
    simp [keyMatches, a, b, c]
  refine ⟨?_, hkeys, ?_, ?_⟩
  · rw [hk3, List.filter_append, List.filter_filter]
    have hnil : (process_key cfg course semester sec subj_pool true table st).inserts.filter
        (fun s => !keyMatches course semester sec s) = [] := by
      rw [List.filter_eq_nil_iff]
      intro p hp
      rw [hkeys p hp]
      simp
    rw [hnil, List.append_nil]
    congr 1
    funext s
    simp [Bool.and_self]
  · rw [hk3, List.filter_append]
    have hnil : (table.filter (fun s => !keyMatches course semester sec s)).filter
        (fun s => keyMatches course semester sec s) = [] := by
      rw [List.filter_filter, List.filter_eq_nil_iff]
      intro p _
      by_cases h : keyMatches course semester sec p = true <;> simp [h]
    have hself : (process_key cfg course semester sec subj_pool true table st).inserts.filter
        (fun s => keyMatches course semester sec s) =
        (process_key cfg course semester sec subj_pool true table st).inserts :=
      List.filter_eq_self.mpr hkeys
    rw [hnil, hself, List.nil_append]
  · rw [hk3f]
    simp

/-- C5 (witness): regenerating key ("C", 1, "A") leaves the row of the
unrelated key ("D", 1, "B") untouched. -/
theorem C5_frame_witness :
    (miniCfg.sample_faculty ≠ [] ∧ "" ∉ miniCfg.sample_faculty ∧ "" ∉ miniCfg.rooms) ∧
    ((process_key miniCfg "C" 1 "A" ["S"] true
        [⟨"D", 1, "B", "Mon", "09:00", "10:00", "T", some "F", some "R1"⟩]
        (seed_state [⟨"D", 1, "B", "Mon", "09:00", "10:00", "T", some "F", some "R1"⟩]
          [])).table.filter (fun s => !keyMatches "C" 1 "A" s) =
      ([⟨"D", 1, "B", "Mon", "09:00", "10:00", "T", some "F", some "R1"⟩] :
        List Session).filter (fun s => !keyMatches "C" 1 "A" s)) :=
  ⟨⟨by decide, by decide, by decide⟩,
   (C5_frame miniCfg "C" 1 "A" ["S"]
     [⟨"D", 1, "B", "Mon", "09:00", "10:00", "T", some "F", some "R1"⟩]
     (seed_state [⟨"D", 1, "B", "Mon", "09:00", "10:00", "T", some "F", some "R1"⟩] [])
     (by decide) (by decide) (by decide)).1⟩

/-- C2: for every subject of the scheduled (shuffled, possibly trimmed)
list of a key, if no shortfall entry was logged for it then exactly 3
sessions carry that subject; and any subject outside the scheduled list
(in particular one dropped by capacity truncation) receives 0 sessions,
never 1 or 2. -/
theorem C2_three_sessions_or_logged (cfg : Config) (course : String) (semester : Nat)
    (sec : String) (subj_pool : List String) (insert_ok : Bool) (table : List Session)
    (st : GenState)
    (hpool : cfg.sample_faculty ≠ []) (hfe : "" ∉ cfg.sample_faculty)
    (hre : "" ∉ cfg.rooms) (hnd : subj_pool.Nodup) :
    (∀ subj ∈ (process_key cfg course semester sec subj_pool insert_ok table st).scheduled,
      (∀ rem, (subj, rem) ∉
        (process_key cfg course semester sec subj_pool insert_ok table st).shortfalls) →
      ((process_key cfg course semester sec subj_pool insert_ok table st).inserts.filter
        (fun p => decide (p.subject = subj))).length = 3) ∧
    (∀ subj, subj ∉ (process_key cfg course semester sec subj_pool insert_ok table st).scheduled →
      ((process_key cfg course semester sec subj_pool insert_ok table st).inserts.filter
        (fun p => decide (p.subject = subj))).length = 0) := by
  obtain ⟨ps, nl, h1, h2, h3, h4, h5, h6⟩ :=
    schedule_fold_spec cfg course semester sec hpool hfe hre
      (trim_subjects cfg.days.length cfg.time_slots.length (shuffle st.rnd subj_pool).1).1
      { queue := (shuffle (shuffle st.rnd subj_pool).2 (day_slot_pairs_all cfg)).1,
        local_occ := fun _ => [],
        st := { st with rnd := (shuffle (shuffle st.rnd subj_pool).2 (day_slot_pairs_all cfg)).2 },
        inserts := [] } []
  rw [List.nil_append] at h1
  rw [List.nil_append] at h2
  have hnodup : ((trim_subjects cfg.days.length cfg.time_slots.length
      (shuffle st.rnd subj_pool).1).1).Nodup := by
    have hshuf : (shuffle st.rnd subj_pool).1.Nodup :=
      ((shuffle_perm st.rnd subj_pool).nodup_iff).mpr hnd
    simp only [trim_subjects]
    split
    · exact List.Nodup.sublist (List.take_sublist _ _) hshuf
    · exact hshuf
  constructor
  · intro subj hmem hnot
    simp only [process_key] at hmem hnot ⊢
    rw [h1]
    refine h6 hnodup subj hmem ?_
    intro rem hcontra
    exact hnot rem (h2 ▸ hcontra)
  · intro subj hsub
    simp only [process_key] at hsub ⊢
    rw [h1, List.length_eq_zero, List.filter_eq_nil_iff]
    intro p hp
    have hps := (h3 p hp).2.2.2
    simp only [decide_eq_true_eq]
    intro hcontra
    rw [hcontra] at hps
    exact hsub hps

/-- C2 (witness): with three days of one slot, the single subject "S"
is fully scheduled (no shortfall entry) and receives exactly 3
sessions. -/
theorem C2_three_sessions_or_logged_witness :
    (["S"] : List String).Nodup ∧
    (process_key triCfg "C" 1 "A" ["S"] true [] (seed_state [] [])).shortfalls = [] ∧
    ((process_key triCfg "C" 1 "A" ["S"] true [] (seed_state [] [])).inserts.filter
      (fun p => decide (p.subject = "S"))).length = 3 := by
  have hshort : (process_key triCfg "C" 1 "A" ["S"] true []
      (seed_state [] [])).shortfalls = [] := by decide
  refine ⟨by decide, hshort, ?_⟩
  exact (C2_three_sessions_or_logged triCfg "C" 1 "A" ["S"] true [] (seed_state [] [])
    (by decide) (by decide) (by decide) (by decide)).1 "S" (by decide)
    (fun rem hcontra => List.not_mem_nil _ (hshort ▸ hcontra))

/-- Modelled from the spec for claim C4 only (the code's own seeding is
`seed_state`): the seeding the spec describes, which reads only the
sessions whose (course, semester, section) key is NOT among the keys
being regenerated. -/
def seed_state_claimed (table : List Session) (rnd : List Nat)
    (regen : List (String × Nat × String)) : GenState :=
  seed_state (table.filter (fun s => !decide ((s.course, s.semester, s.sec) ∈ regen))) rnd

set_option maxRecDepth 40000 in
/-- C4 (counterexample): the code seeds the section index from EVERY
stored row, including the single row of the key ("C", 1, "A") that the
run is about to regenerate, whereas the spec-described seeding would
leave that index entry empty.  Consequently, after the old row is
deleted, its stale index entry still blocks the only (day, slot)
candidate: the run places zero sessions and leaves the key's timetable
empty, even though every slot is free in storage. -/
theorem C4_counterexample :
    (seed_state c4Table []).occupied_section ("C", 1, "A", "Mon") ≠
      (seed_state_claimed c4Table [] [("C", 1, "A")]).occupied_section
        ("C", 1, "A", "Mon") ∧
    (auto_generate_timetable miniCfg ["C"] 1 ["A"] c4Table [] []).total_inserts = 0 ∧
    (auto_generate_timetable miniCfg ["C"] 1 ["A"] c4Table [] []).table = [] := by
  refine ⟨by decide, by decide, by decide⟩

/-- C4 (amended): the occupancy indexes are seeded from ALL sessions in
storage — with no exclusion of the keys about to be regenerated (the
non-empty-string conditions mirror Python's `if room:` / `if faculty:`
truthiness) — and the faculty-load counters are seeded from the whole
table's per-faculty row counts. -/
theorem C4_seed_includes_all (table : List Session) (rnd : List Nat) :
    (∀ s ∈ table, (s.start_time, s.end_time) ∈
      (seed_state table rnd).occupied_section (s.course, s.semester, s.sec, s.day)) ∧
    (∀ s ∈ table, ∀ f, s.faculty = some f → f ≠ "" →
      (s.start_time, s.end_time) ∈ (seed_state table rnd).occupied_faculty (f, s.day)) ∧
    (∀ s ∈ table, ∀ r, s.room_no = some r → r ≠ "" →
      (s.start_time, s.end_time) ∈ (seed_state table rnd).occupied_room (r, s.day)) ∧
    ((seed_state table rnd).faculty_load =
      fun f => (table.filter (fun s => decide (s.faculty = some f))).length) := by
  obtain ⟨_, _, _, _, hcf, hcr, hcs⟩ := seed_fold_spec table
    { occupied_room := fun _ => [], occupied_faculty := fun _ => [],
      occupied_section := fun _ => [],
      faculty_load := fun f => (table.filter (fun s => decide (s.faculty = some f))).length,
      rnd := rnd, room_fallback := false }
  exact ⟨hcs, hcf, hcr, by unfold seed_state; rw [seed_fold_load]⟩

/-- C4 (witness): the stored row of the regenerated key itself is in
the seeded section index. -/
theorem C4_seed_includes_all_witness :
    (⟨"C", 1, "A", "Mon", "09:00", "10:00", "S", some "F", some "R1"⟩ : Session) ∈ c4Table ∧
    ("09:00", "10:00") ∈ (seed_state c4Table []).occupied_section ("C", 1, "A", "Mon") :=
  ⟨by decide,
   (C4_seed_includes_all c4Table []).1
     ⟨"C", 1, "A", "Mon", "09:00", "10:00", "S", some "F", some "R1"⟩ (by decide)⟩

/-- C6: the balanced pick is a minimum-load member of the faculty pool;
a placed session's faculty is that pick when it is free on the candidate
day, and otherwise some pool member free at that day/slot; and when no
pool member is free, the candidate (day, slot) is requeued at the back
of the work queue with no session recorded. -/
theorem C6_faculty_selection (cfg : Config) (course : String) (semester : Nat)
    (sec : String) (subj : String) (ss : SubjState) (d : String) (slot : Interval)
    (rest : List (String × Interval))
    (hpool : cfg.sample_faculty ≠ [])
    (hq : ss.queue = (d, slot) :: rest)
    (hloc : overlapsAny slot.1 slot.2 (ss.local_occ d) = false) :
    (pick_faculty_balanced cfg.sample_faculty ss.st.faculty_load (take1 ss.st.rnd).1 ∈
        cfg.sample_faculty ∧
      ss.st.faculty_load (pick_faculty_balanced cfg.sample_faculty ss.st.faculty_load
        (take1 ss.st.rnd).1) = min_load cfg.sample_faculty ss.st.faculty_load ∧
      ∀ f ∈ cfg.sample_faculty,
        min_load cfg.sample_faculty ss.st.faculty_load ≤ ss.st.faculty_load f) ∧
    (∀ p : Session, (attemptStep cfg course semester sec subj ss).2.1 = some p →
      ((overlapsAny slot.1 slot.2 (ss.st.occupied_faculty
          (pick_faculty_balanced cfg.sample_faculty ss.st.faculty_load
            (take1 ss.st.rnd).1, d)) = false ∧
        p.faculty = some (pick_faculty_balanced cfg.sample_faculty ss.st.faculty_load
          (take1 ss.st.rnd).1)) ∨
       (overlapsAny slot.1 slot.2 (ss.st.occupied_faculty
          (pick_faculty_balanced cfg.sample_faculty ss.st.faculty_load
            (take1 ss.st.rnd).1, d)) = true ∧
        ∃ f, p.faculty = some f ∧ f ∈ cfg.sample_faculty ∧
          overlapsAny slot.1 slot.2 (ss.st.occupied_faculty (f, d)) = false))) ∧
    (overlapsAny slot.1 slot.2 (ss.st.occupied_faculty
        (pick_faculty_balanced cfg.sample_faculty ss.st.faculty_load
          (take1 ss.st.rnd).1, d)) = true →
      cfg.sample_faculty.filter
        (fun f => !overlapsAny slot.1 slot.2 (ss.st.occupied_faculty (f, d))) = [] →
      (attemptStep cfg course semester sec subj ss).2.1 = none ∧
      (attemptStep cfg course semester sec subj ss).1.queue = rest ++ [(d, slot)] ∧
      (attemptStep cfg course semester sec subj ss).1.inserts = ss.inserts) := by
  have hpick := pick_faculty_balanced_spec cfg.sample_faculty ss.st.faculty_load
    (take1 ss.st.rnd).1 hpool
  refine ⟨⟨hpick.1, hpick.2, min_load_le _ _⟩, ?_, ?_⟩
  · intro p hp
    simp only [attemptStep, hq] at hp
    rw [if_neg (by rw [hloc]; simp)] at hp
    by_cases hbusy : overlapsAny slot.1 slot.2 (ss.st.occupied_faculty
        (pick_faculty_balanced cfg.sample_faculty ss.st.faculty_load
          (take1 ss.st.rnd).1, d)) = true
    · rw [if_pos hbusy] at hp
      by_cases hav : (cfg.sample_faculty.filter
          (fun f => !overlapsAny slot.1 slot.2 (ss.st.occupied_faculty (f, d)))).isEmpty = true
      · rw [if_pos hav] at hp
        dsimp only at hp
        cases hp
      · rw [if_neg hav] at hp
        have hne : cfg.sample_faculty.filter
            (fun f => !overlapsAny slot.1 slot.2 (ss.st.occupied_faculty (f, d))) ≠ [] := by
          intro hnil
          rw [hnil] at hav
          exact hav rfl
        have hch := List.mem_filter.mp
          (choice_mem _ "" ((take1 (take1 ss.st.rnd).2).1) hne)
        right
        refine ⟨hbusy, choice (cfg.sample_faculty.filter
            (fun f => !overlapsAny slot.1 slot.2 (ss.st.occupied_faculty (f, d)))) ""
            ((take1 (take1 ss.st.rnd).2).1),
          attemptFinish_faculty _ _ _ _ _ _ _ _ _ _ _ _ hp, hch.1, ?_⟩
        have := hch.2
        simpa using this
    · rw [if_neg hbusy] at hp
      left
      exact ⟨bool_not_true hbusy, attemptFinish_faculty _ _ _ _ _ _ _ _ _ _ _ _ hp⟩
  · intro hbusy hflt
    simp only [attemptStep, hq]
    rw [if_neg (by rw [hloc]; simp), if_pos hbusy, if_pos (by rw [hflt]; rfl)]
    exact ⟨rfl, rfl, rfl⟩

/-- A concrete loop state for the C6 witness: one queued candidate, no
local occupancy, the state seeded from an empty table. -/
def c6SS : SubjState :=
  { queue := [("Mon", ("09:00", "10:00"))], local_occ := fun _ => [],
    st := seed_state [] [], inserts := [] }

/-- C6 (witness): the faculty-selection theorem applied to `c6SS`. -/
theorem C6_faculty_selection_witness :
    (miniCfg.sample_faculty ≠ [] ∧
      overlapsAny "09:00" "10:00" (c6SS.local_occ "Mon") = false) ∧
    pick_faculty_balanced miniCfg.sample_faculty c6SS.st.faculty_load
      (take1 c6SS.st.rnd).1 ∈ miniCfg.sample_faculty :=
  ⟨⟨by decide, by decide⟩,
   (C6_faculty_selection miniCfg "C" 1 "A" "S" c6SS "Mon" ("09:00", "10:00") []
     (by decide) rfl (by decide)).1.1⟩

/-- The pre-existing table of the C10 counterexample: one session whose
`room_no` is the EMPTY string (a value Python's `if room_no:` treats as
falsy). -/
def c10Table : List Session :=
  [⟨"C", 1, "A", "Mon", "09:00", "10:00", "S", none, some ""⟩]

/-- C10 (counterexample): a proposed entry with room `""` overlaps an
existing session with the same (room_no, day), yet `add_timetable_entry`
skips the room check (`if room_no:` is false for the empty string),
inserts the row and returns True — refuting the claim as stated for a
given (non-null) room. -/
theorem C10_counterexample :
    (∃ s ∈ c10Table, s.room_no = some "" ∧ s.day = "Mon" ∧
      time_overlap s.start_time s.end_time "09:30" "10:30" = true) ∧
    (add_timetable_entry c10Table "D" 1 "A" "Mon" "09:30" "10:30" "T" none
      (some "")).1 = true ∧
    (add_timetable_entry c10Table "D" 1 "A" "Mon" "09:30" "10:30" "T" none
      (some "")).2 =
      c10Table ++ [⟨"D", 1, "A", "Mon", "09:30", "10:30", "T", none, some ""⟩] := by
  decide

/-- C10 (amended): `add_timetable_entry` returns False and leaves the
table unchanged whenever the proposed entry overlaps an existing session
of the same (course, semester, section, day), or — when a NON-EMPTY room
string is given — an existing session with the same (room_no, day); it
returns True exactly when the new row was appended, and on False the
table is unchanged. -/
theorem C10_overlap_reject_amended (table : List Session) (course : String)
    (semester : Nat) (sec day start_time end_time subject : String)
    (faculty room_no : Option String) :
    ((table.any (fun s => decide (s.course = course) && decide (s.semester = semester) &&
        decide (s.sec = sec) && decide (s.day = day) &&
        time_overlap s.start_time s.end_time start_time end_time) = true) →
      (add_timetable_entry table course semester sec day start_time end_time subject
        faculty room_no).1 = false ∧
      (add_timetable_entry table course semester sec day start_time end_time subject
        faculty room_no).2 = table) ∧
    (∀ r, room_no = some r → r ≠ "" →
      (table.any (fun s => decide (s.room_no = some r) && decide (s.day = day) &&
        time_overlap s.start_time s.end_time start_time end_time) = true) →
      (add_timetable_entry table course semester sec day start_time end_time subject
        faculty room_no).1 = false ∧
      (add_timetable_entry table course semester sec day start_time end_time subject
        faculty room_no).2 = table) ∧
    ((add_timetable_entry table course semester sec day start_time end_time subject
        faculty room_no).1 = true →
      (add_timetable_entry table course semester sec day start_time end_time subject
        faculty room_no).2 = table ++
        [⟨course, semester, sec, day, start_time, end_time, subject, faculty, room_no⟩]) ∧
    ((add_timetable_entry table course semester sec day start_time end_time subject
        faculty room_no).1 = false →
      (add_timetable_entry table course semester sec day start_time end_time subject
        faculty room_no).2 = table) := by
  simp only [add_timetable_entry]
  by_cases h1 : table.any (fun s => decide (s.course = course) &&
      decide (s.semester = semester) && decide (s.sec = sec) && decide (s.day = day) &&
      time_overlap s.start_time s.end_time start_time end_time) = true
  · rw [if_pos h1]
    refine ⟨fun _ => ⟨rfl, rfl⟩, fun r hr hne _ => ⟨rfl, rfl⟩, fun hcontra => ?_,
      fun _ => rfl⟩
    simp at hcontra
  · rw [if_neg h1]
    rcases room_no with _ | r0
    · simp only [room_conflict_check, unique_conflict_check, Bool.false_eq_true,
        if_false]
      refine ⟨fun hcontra => absurd hcontra h1, ?_, fun _ => trivial, ?_⟩
      · intro r hr
        exact Option.noConfusion hr
      · intro hcontra
        simp at hcontra
    · simp only [room_conflict_check, unique_conflict_check]
      by_cases he : r0 = ""
      · rw [if_pos he]
        simp only [Bool.false_eq_true, if_false]
        by_cases hu : table.any (fun s => decide (s.course = course) &&
            decide (s.semester = semester) && decide (s.sec = sec) &&
            decide (s.day = day) && decide (s.start_time = start_time) &&
            decide (s.end_time = end_time) && decide (s.room_no = some r0)) = true
        · rw [if_pos hu]
          refine ⟨fun hcontra => absurd hcontra h1, ?_, fun hcontra => ?_, fun _ => rfl⟩
          · intro r hr hne
            injection hr with hr2
            exact absurd (hr2 ▸ he) hne
          · simp at hcontra
        · rw [if_neg hu]
          refine ⟨fun hcontra => absurd hcontra h1, ?_, fun _ => rfl, fun hcontra => ?_⟩
          · intro r hr hne
            injection hr with hr2
            exact absurd (hr2 ▸ he) hne
          · simp at hcontra
      · rw [if_neg he]
        by_cases h2 : table.any (fun s => decide (s.room_no = some r0) &&
            decide (s.day = day) &&
            time_overlap s.start_time s.end_time start_time end_time) = true
        · rw [if_pos h2]
          refine ⟨fun hcontra => absurd hcontra h1, fun r hr hne _ => ⟨rfl, rfl⟩,
            fun hcontra => ?_, fun _ => rfl⟩
          simp at hcontra
        · rw [if_neg h2]
          by_cases hu : table.any (fun s => decide (s.course = course) &&
              decide (s.semester = semester) && decide (s.sec = sec) &&
              decide (s.day = day) && decide (s.start_time = start_time) &&
              decide (s.end_time = end_time) && decide (s.room_no = some r0)) = true
          · rw [if_pos hu]
            refine ⟨fun hcontra => absurd hcontra h1, ?_, fun hcontra => ?_, fun _ => rfl⟩
            · intro r hr hne hany
              injection hr with hr2
              subst hr2
              exact absurd hany h2
            · simp at hcontra
          · rw [if_neg hu]
            refine ⟨fun hcontra => absurd hcontra h1, ?_, fun _ => rfl, fun hcontra => ?_⟩
            · intro r hr hne hany
              injection hr with hr2
              subst hr2
              exact absurd hany h2
            · simp at hcontra

/-- C10 (witness): a proposed entry overlapping an existing session of
the same (course, semester, section, day) is rejected and the table is
unchanged. -/
theorem C10_overlap_reject_amended_witness :
    ((c10Table.any (fun s => decide (s.course = "C") && decide (s.semester = 1) &&
        decide (s.sec = "A") && decide (s.day = "Mon") &&
        time_overlap s.start_time s.end_time "09:30" "10:30") = true)) ∧
    (add_timetable_entry c10Table "C" 1 "A" "Mon" "09:30" "10:30" "T" none none).1 =
      false ∧
    (add_timetable_entry c10Table "C" 1 "A" "Mon" "09:30" "10:30" "T" none none).2 =
      c10Table := by
  refine ⟨by decide, ?_, ?_⟩
  · exact ((C10_overlap_reject_amended c10Table "C" 1 "A" "Mon" "09:30" "10:30" "T"
      none none).1 (by decide)).1
  · exact ((C10_overlap_reject_amended c10Table "C" 1 "A" "Mon" "09:30" "10:30" "T"
      none none).1 (by decide)).2

end InsightED
